import Mathlib

/-!
Verification development for the ScreenControlAgent core: a shallow embedding
of the element-grounding engine, the hybrid element detector, the task-plan
model, the error-recovery planner, the control loop and the mark-table logic,
together with theorems settling the specified properties.

Numeric conventions: Python integers are modelled as ℤ (ℕ for counters that
are provably non-negative), exact rational arithmetic as ℚ, and quantities
involving square roots (euclidean distances and the scores derived from them)
as ℝ.  Python's floor division `//` is `Int.fdiv`.
-/

set_option maxHeartbeats 1600000

namespace ScreenAgentSpec

/-! ## String utilities

Python's `needle in hay` substring test and case folding, used by the
grounding engine and the error classifier. -/

/-- Does the second list occur as a leading segment of the first? -/
def startsWithSeq {α : Type} [DecidableEq α] : List α → List α → Bool
  | _, [] => true
  | [], _ :: _ => false
  | a :: as, b :: bs => a = b && startsWithSeq as bs

/-- Does the second list occur contiguously inside the first?
Mirrors Python's `needle in hay` on strings (empty needle always matches). -/
def containsSeq {α : Type} [DecidableEq α] : List α → List α → Bool
  | [], needle => needle.isEmpty
  | a :: as, needle => startsWithSeq (a :: as) needle || containsSeq as needle

/-- Python `needle in hay` for strings. -/
def strContains (hay needle : String) : Bool :=
  containsSeq hay.toList needle.toList

/-- ASCII case folding of one character.  Python's `str.lower()` restricted
to ASCII; the repository's keyword tables are ASCII or Chinese, and Chinese
characters are caseless in both systems. -/
def lowerChar (c : Char) : Char :=
  if 'A' ≤ c ∧ c ≤ 'Z' then Char.ofNat (c.toNat + 32) else c

/-- Python `str.lower()`. -/
def lowerStr (s : String) : String := String.mk (s.toList.map lowerChar)

/-- The whitespace characters Python's `str.strip()` removes by default
(restricted to ASCII). -/
def isPySpace (c : Char) : Bool :=
  c = ' ' ∨ c = '\t' ∨ c = '\n' ∨ c = '\r' ∨ c = '\x0b' ∨ c = '\x0c'

/-- Python `str.strip()`. -/
def trimStr (s : String) : String :=
  String.mk (((s.toList.dropWhile isPySpace).reverse.dropWhile isPySpace).reverse)

/-! ## Geometry model (`models/ui_element.py`, class `BoundingRect`) -/

/-- Bounding rectangle for a UI element (integer pixels). -/
structure BoundingRect where
  left : ℤ
  top : ℤ
  right : ℤ
  bottom : ℤ
deriving DecidableEq

def BoundingRect.width (r : BoundingRect) : ℤ := r.right - r.left

def BoundingRect.height (r : BoundingRect) : ℤ := r.bottom - r.top

/-- Center point; Python `//` is floor division, hence `Int.fdiv`. -/
def BoundingRect.center (r : BoundingRect) : ℤ × ℤ :=
  (r.left + r.width.fdiv 2, r.top + r.height.fdiv 2)

/-! ## SoM elements and the hybrid detector
(`models/som_element.py`, `perception/element_detector.py`) -/

/-- An interactive element record produced by one of the two detector
sources (accessibility tree or page/DOM). -/
structure SoMElement where
  markId : ℤ
  name : String
  elementType : String
  boundingRect : BoundingRect
  source : String
  isEnabled : Bool
  isVisible : Bool
deriving DecidableEq

namespace HybridElementDetector

/-- One iteration of the loop body of `_overlaps_any`: does `r1` overlap `r2`
significantly?  Mirrors the source: rects with empty intersection are skipped,
otherwise the intersection-over-union (with the `max(1, _)` guards of the
source) is compared against the threshold.  Exact rational arithmetic stands
in for the float division. -/
def overlapsOne (r1 r2 : BoundingRect) (iouThreshold : ℚ) : Bool :=
  let ixLeft := max r1.left r2.left
  let iyTop := max r1.top r2.top
  let ixRight := min r1.right r2.right
  let iyBottom := min r1.bottom r2.bottom
  if ixRight ≤ ixLeft ∨ iyBottom ≤ iyTop then
    false
  else
    let intersection := (ixRight - ixLeft) * (iyBottom - iyTop)
    let area1 := max 1 (r1.width * r1.height)
    let area2 := max 1 (r2.width * r2.height)
    let union := area1 + area2 - intersection
    decide ((intersection : ℚ) / ((max 1 union : ℤ) : ℚ) ≥ iouThreshold)

/-- `_overlaps_any`: does `elem` significantly overlap any element of
`others`?  The Python loop with early `return True` is a `List.any`. -/
def overlapsAny (elem : SoMElement) (others : List SoMElement)
    (iouThreshold : ℚ) : Bool :=
  others.any fun other => overlapsOne elem.boundingRect other.boundingRect iouThreshold

/-- `detect`, given the two source result lists (`_detect_uia` and
`_detect_cdp` are I/O and enter the model as inputs).  The Python loop that
appends each CDP element not overlapping any UIA element is the filter. -/
def detect (uiaElements cdpElements : List SoMElement) : List SoMElement :=
  if cdpElements = [] then uiaElements
  else if uiaElements = [] then cdpElements
  else uiaElements ++ cdpElements.filter fun c => !(overlapsAny c uiaElements (1/2))

/-- The intersection-over-union measure the specification speaks about: area
of the rectangle intersection over area of the union.  For rects of positive
width and height this is what the source computes behind its guards. -/
def iouMeasure (r1 r2 : BoundingRect) : ℚ :=
  let inter := max 0 (min r1.right r2.right - max r1.left r2.left) *
    max 0 (min r1.bottom r2.bottom - max r1.top r2.top)
  let area1 := max 1 (r1.width * r1.height)
  let area2 := max 1 (r2.width * r2.height)
  (inter : ℚ) / ((max 1 (area1 + area2 - inter) : ℤ) : ℚ)

/-- Well-formedness of a rect: positive width and height (real detections;
zero-area rects are filtered out upstream). -/
def WfRect (r : BoundingRect) : Prop := r.left < r.right ∧ r.top < r.bottom

end HybridElementDetector

/-! ## Task plan model (`models/task.py`) -/

inductive SubtaskStatus where
  | pending
  | inProgress
  | completed
  | failed
  | skipped
deriving DecidableEq

/-- A subtask of a decomposed task.  The wall-clock timestamp fields of the
source are irrelevant to control flow and are omitted. -/
structure Subtask where
  id : String
  description : String
  successCriteria : String
  estimatedSteps : ℤ
  status : SubtaskStatus
  actualSteps : ℤ
  errorMessage : Option String
deriving DecidableEq

/-- `Subtask.start`: mark as in progress. -/
def Subtask.start (s : Subtask) : Subtask := { s with status := .inProgress }

/-- `Subtask.complete`: mark as completed. -/
def Subtask.complete (s : Subtask) : Subtask := { s with status := .completed }

/-- A complete task execution plan. -/
structure TaskPlan where
  originalTask : String
  subtasks : List Subtask
  currentIndex : ℕ
deriving DecidableEq

/-- Property `current_subtask`: the subtask at the current index, if the
index is in range. -/
def TaskPlan.currentSubtask (p : TaskPlan) : Option Subtask :=
  p.subtasks.get? p.currentIndex

/-- First block of `TaskPlan.advance`: complete the current subtask if it is
in progress. -/
def TaskPlan.completeCurrent (p : TaskPlan) : TaskPlan :=
  match p.currentSubtask with
  | some s =>
      if s.status = SubtaskStatus.inProgress then
        { p with subtasks := p.subtasks.set p.currentIndex s.complete }
      else p
  | none => p

/-- `TaskPlan.advance`: complete the current subtask if it is in progress,
move the index forward, start the next subtask when one exists.  Returns the
Python boolean result together with the mutated plan. -/
def TaskPlan.advance (p : TaskPlan) : Bool × TaskPlan :=
  let p1 := p.completeCurrent
  let p2 : TaskPlan := { p1 with currentIndex := p1.currentIndex + 1 }
  match p2.subtasks.get? p2.currentIndex with
  | some s => (true, { p2 with subtasks := p2.subtasks.set p2.currentIndex s.start })
  | none => (false, p2)

/-- Number of subtasks of a plan currently in progress. -/
def TaskPlan.countInProgress (p : TaskPlan) : ℕ :=
  (p.subtasks.filter fun s => s.status = SubtaskStatus.inProgress).length

/-! ## Action model (`models/action.py`) -/

inductive ActionType where
  | click
  | doubleClick
  | rightClick
  | type
  | hotkey
  | scroll
  | move
  | wait
  | done
deriving DecidableEq

/-- A single action to be executed.  Durations (Python floats) are modelled
as ℚ; the `grounding_confidence` trace field plays no role in any modelled
control path and is omitted. -/
structure Action where
  actionType : ActionType
  coordinates : Option (ℤ × ℤ)
  text : Option String
  keys : Option (List String)
  scrollAmount : Option ℤ
  duration : Option ℚ
  description : Option String
  targetElementName : Option String
deriving DecidableEq

/-- An action with only the type set (the dataclass defaults). -/
def Action.ofType (t : ActionType) : Action :=
  ⟨t, none, none, none, none, none, none, none⟩

/-! ## Error model and recovery planner
(`models/task.py` `ErrorType`/`ErrorEvent`, `brain/error_recovery.py`) -/

inductive ErrorType where
  | clickMissed
  | elementNotFound
  | elementMoved
  | popupBlocked
  | typingFailed
  | timeout
  | permissionDenied
  | unexpectedState
  | unknown
deriving DecidableEq

/-- The `value` string of each error kind. -/
def ErrorType.value : ErrorType → String
  | .clickMissed => "click_missed"
  | .elementNotFound => "element_not_found"
  | .elementMoved => "element_moved"
  | .popupBlocked => "popup_blocked"
  | .typingFailed => "typing_failed"
  | .timeout => "timeout"
  | .permissionDenied => "permission_denied"
  | .unexpectedState => "unexpected_state"
  | .unknown => "unknown"

/-- Records an error that occurred during execution (timestamp omitted). -/
structure ErrorEvent where
  errorType : ErrorType
  actionDescription : String
  recoveryAttempted : Bool
  recoverySuccessful : Bool
  recoveryStrategy : Option String
deriving DecidableEq

/-- A strategy for recovering from an error. -/
structure RecoveryStrategy where
  name : String
  description : String
  preActions : List Action
  retryOriginal : Bool
  maxRetries : ℕ
deriving DecidableEq

namespace ErrorRecovery

/-- The built-in `STRATEGIES` table as a function (Python `dict.get(kind, [])`:
kinds absent from the table yield `[]`). -/
def STRATEGIES : ErrorType → List RecoveryStrategy
  | .clickMissed =>
      [⟨"retry_click", "Simply retry the click action",
        [{ Action.ofType .wait with duration := some 0.5 }], true, 2⟩,
       ⟨"click_nearby", "Click slightly different position", [], true, 1⟩]
  | .elementNotFound =>
      [⟨"wait_and_retry", "Wait for element to appear",
        [{ Action.ofType .wait with duration := some 1.5 }], true, 3⟩,
       ⟨"scroll_down", "Scroll down to find element",
        [{ Action.ofType .scroll with scrollAmount := some (-3) }], true, 2⟩,
       ⟨"scroll_up", "Scroll up to find element",
        [{ Action.ofType .scroll with scrollAmount := some 3 }], true, 2⟩]
  | .popupBlocked =>
      [⟨"dismiss_with_escape", "Press Escape to dismiss popup",
        [{ Action.ofType .hotkey with keys := some ["escape"] }], true, 2⟩,
       ⟨"click_outside", "Click outside popup to dismiss",
        [{ Action.ofType .click with coordinates := some (10, 10) }], true, 1⟩]
  | .typingFailed =>
      [⟨"click_and_retype", "Click target field and retype", [], true, 2⟩,
       ⟨"clear_and_retype", "Clear field with Ctrl+A and retype",
        [{ Action.ofType .hotkey with keys := some ["ctrl", "a"] }], true, 1⟩]
  | .timeout =>
      [⟨"wait_longer", "Wait longer for operation to complete",
        [{ Action.ofType .wait with duration := some 3.0 }], true, 2⟩]
  | .elementMoved =>
      [⟨"refresh_and_retry", "Refresh element location and retry",
        [{ Action.ofType .wait with duration := some 0.5 }], true, 2⟩]
  | .unexpectedState =>
      [⟨"escape_and_retry", "Press Escape and retry",
        [{ Action.ofType .hotkey with keys := some ["escape"] },
         { Action.ofType .wait with duration := some 0.5 }], true, 1⟩]
  | _ => []

/-- The generic fallback list built inline for kinds with no table entry. -/
def genericStrategies : List RecoveryStrategy :=
  [⟨"wait_and_retry", "Wait and retry the action",
    [{ Action.ofType .wait with duration := some 1.0 }], true, 2⟩]

/-- The `ERROR_KEYWORDS` classification table, in source (dict insertion)
order. -/
def ERROR_KEYWORDS : List (ErrorType × List String) :=
  [(.clickMissed,
    ["didn't click", "missed", "wrong position", "not clicked",
     "click failed", "未点击", "点击失败"]),
   (.elementNotFound,
    ["not found", "doesn't exist", "cannot find", "no element",
     "not visible", "找不到", "不存在", "未找到"]),
   (.popupBlocked,
    ["popup", "dialog", "modal", "blocked", "overlay", "弹窗", "对话框", "遮挡"]),
   (.typingFailed,
    ["typing failed", "text not entered", "input failed", "输入失败", "未输入"]),
   (.timeout,
    ["timeout", "too slow", "not responding", "超时", "无响应"]),
   (.elementMoved,
    ["moved", "position changed", "relocated", "位置变化", "移动"])]

/-- Result record of the step verifier (`brain/verifier.py`), restricted to
the fields the agent stores in `last_verification`. -/
structure VerificationResult where
  actionSuccessful : Bool
  taskCompleted : Bool
  observation : String
  issues : Option String
deriving DecidableEq

/-- `analyze_error`: classify a failure from the verifier's free text.  The
`action` is the agent's `last_action`; in every reachable call it is present
(a verification result exists only after an executed action), so the
action-type heuristics simply do not fire on `none`. -/
def analyzeError (action : Option Action) (verification : VerificationResult) :
    ErrorType :=
  let combined := lowerStr ((verification.issues.getD "") ++ " " ++ verification.observation)
  match ERROR_KEYWORDS.find? fun p => p.2.any fun kw => strContains combined (lowerStr kw) with
  | some p => p.1
  | none =>
    match action with
    | some a =>
      if (a.actionType = .click ∨ a.actionType = .doubleClick ∨ a.actionType = .rightClick) ∧
          strContains combined "not" ∧
          (strContains combined "click" ∨ strContains combined "open") then
        .clickMissed
      else if a.actionType = .type ∧ strContains combined "not" ∧
          (strContains combined "type" ∨ strContains combined "enter" ∨
           strContains combined "input") then
        .typingFailed
      else .unknown
    | none => .unknown

/-- Mutable state of an `ErrorRecovery` instance: its configuration plus the
`_attempt_counts` dict, modelled as an insertion-ordered association list. -/
structure State where
  maxRecoveryAttempts : ℕ
  enabledStrategies : Option (List String)
  attemptCounts : List (String × ℕ)
deriving DecidableEq

/-- Python `self._attempt_counts.get(key, 0)`. -/
def countsGet (m : List (String × ℕ)) (key : String) : ℕ :=
  ((m.find? fun p => p.1 = key).map Prod.snd).getD 0

/-- Python `self._attempt_counts[key] = v` (replace in place, else append;
dicts preserve insertion order). -/
def countsSet (m : List (String × ℕ)) (key : String) (v : ℕ) : List (String × ℕ) :=
  if m.any fun p => p.1 = key then
    m.map fun p => if p.1 = key then (p.1, v) else p
  else m ++ [(key, v)]

/-- `get_recovery_strategy(error_type, action, attempt)`.  Returns the chosen
strategy (or `none`) together with the updated state.  When the (possibly
filtered) strategy list is empty the source raises (`attempt % 0`); that
situation is unreachable for the configurations modelled here (no
`enabled_strategies` filter) and is rendered as `none`. -/
def getRecoveryStrategy (er : State) (errorType : ErrorType) (_action : Action)
    (attempt : ℕ) : Option RecoveryStrategy × State :=
  let strategies0 := STRATEGIES errorType
  let strategies1 := if strategies0 = [] then genericStrategies else strategies0
  let strategies :=
    match er.enabledStrategies with
    | some enabled =>
        if enabled = [] then strategies1
        else strategies1.filter fun s => enabled.contains s.name
    | none => strategies1
  match strategies with
  | [] => (none, er)
  | s0 :: _ =>
    let len := strategies.length
    let strategyIdx := if attempt ≥ len then attempt % len else attempt
    let strategy := strategies.getD strategyIdx s0
    let strategyKey := errorType.value ++ ":" ++ strategy.name
    let currentCount := countsGet er.attemptCounts strategyKey
    if currentCount ≥ strategy.maxRetries then
      if strategyIdx + 1 < len then
        (some (strategies.getD (strategyIdx + 1) s0), er)
      else (none, er)
    else
      (some strategy,
       { er with attemptCounts := countsSet er.attemptCounts strategyKey (currentCount + 1) })

/-- `can_recover(error_type, total_attempts)`. -/
def canRecover (er : State) (errorType : ErrorType) (totalAttempts : ℕ) : Bool :=
  if totalAttempts ≥ er.maxRecoveryAttempts then false
  else if errorType = .permissionDenied then false
  else true

/-- `create_error_event`. -/
def createErrorEvent (errorType : ErrorType) (actionDescription : String)
    (strategyUsed : Option String) : ErrorEvent :=
  ⟨errorType, actionDescription, strategyUsed.isSome, false, strategyUsed⟩

end ErrorRecovery

/-! ## Control loop (`agent.py`, class `ScreenControlAgent`)

The collaborators (screen capture, planner, executor, verifier) are external
I/O; they enter the model as finite schedules of responses, each response
either a value or a raised exception.  An exhausted schedule yields a benign
default.  The configuration modelled is the error-handling core: memory,
task planning and the step callback disabled (`enable_memory = False`,
`enable_task_planning = False`), which removes only code without influence
on the step/recovery control flow under scrutiny. -/

namespace Agent

open ErrorRecovery (VerificationResult)

/-- An exception raised by a collaborator, identified by its message. -/
structure Exn where
  msg : String
deriving DecidableEq

/-- Response schedules for the four collaborator calls. -/
structure Env where
  planR : List (Except Exn Action)
  execR : List (Except Exn Bool)
  verifyR : List (Except Exn VerificationResult)
  captureR : List (Except Exn Unit)

def popPlan (env : Env) : Except Exn Action × Env :=
  match env.planR with
  | [] => (Except.ok (Action.ofType .wait), env)
  | r :: rest => (r, { env with planR := rest })

def popExec (env : Env) : Except Exn Bool × Env :=
  match env.execR with
  | [] => (Except.ok true, env)
  | r :: rest => (r, { env with execR := rest })

def popVerify (env : Env) : Except Exn VerificationResult × Env :=
  match env.verifyR with
  | [] => (Except.ok ⟨true, false, "", none⟩, env)
  | r :: rest => (r, { env with verifyR := rest })

def popCapture (env : Env) : Except Exn Unit × Env :=
  match env.captureR with
  | [] => (Except.ok (), env)
  | r :: rest => (r, { env with captureR := rest })

/-- The fields of `AgentState` driving the modelled control flow (screenshot
handles, memory context and the task-plan fields of the disabled subsystems
are omitted). -/
structure AgentState where
  currentTask : String
  stepCount : ℕ
  maxSteps : ℕ
  lastAction : Option Action
  actionHistory : List Action
  isCompleted : Bool
  errorMessage : Option String
  errorHistory : List ErrorEvent
  recoveryAttempts : ℕ
  lastErrorType : Option String
  lastVerification : Option VerificationResult
deriving DecidableEq

/-- Agent configuration (the constructor arguments of the modelled paths). -/
structure Config where
  maxSteps : ℕ
  verifyEachStep : Bool
  errorRecoveryEnabled : Bool
  maxRecoveryAttempts : ℕ
deriving DecidableEq

/-- Outcome of `_execute_step`: a returned boolean, or a propagated
exception. -/
inductive StepOutcome where
  | ok (success : Bool)
  | raised (e : Exn)
deriving DecidableEq

/-- String form of an action for `ErrorEvent.action_description` (`str` on
the dataclass); the numeric payload of the source's f-strings is immaterial
to control flow and rendered structurally. -/
def describeAction : Option Action → String
  | none => "None"
  | some a =>
    match a.actionType with
    | .click => "Click"
    | .doubleClick => "Double-click"
    | .rightClick => "Right-click"
    | .type => "Type"
    | .hotkey => "Hotkey"
    | .scroll => "Scroll"
    | .move => "move"
    | .wait => "Wait"
    | .done => "Task completed"

/-- `_execute_step`: capture, plan, execute, verify.  Only the planner call
sits inside a `try`; an exception from capture, executor or verifier
propagates as `.raised`. -/
def executeStep (cfg : Config) (env : Env) (st : AgentState) :
    Env × AgentState × StepOutcome :=
  let (cap, env1) := popCapture env
  match cap with
  | .error e => (env1, st, .raised e)
  | .ok _ =>
    let (planned, env2) := popPlan env1
    match planned with
    | .error _ => (env2, st, .ok false)
    | .ok action =>
      if action.actionType = ActionType.done then
        (env2, { st with isCompleted := true }, .ok true)
      else
        let (ex, env3) := popExec env2
        match ex with
        | .error e => (env3, st, .raised e)
        | .ok execSuccess =>
          if execSuccess = false then (env3, st, .ok false)
          else
            let st1 := { st with
              actionHistory := st.actionHistory ++ [action],
              lastAction := some action }
            if cfg.verifyEachStep then
              let (vr, env4) := popVerify env3
              match vr with
              | .error e => (env4, st1, .raised e)
              | .ok result =>
                let st2 := { st1 with lastVerification := some result }
                let st3 :=
                  if result.taskCompleted then { st2 with isCompleted := true } else st2
                if (result.issues.getD "") ≠ "" then (env4, st3, .ok false)
                else (env4, st3, .ok true)
            else (env3, st1, .ok true)

/-- `execute_recovery`: run the strategy's pre-actions through the executor,
ignoring failed pre-actions; an executor exception propagates. -/
def executeRecoveryActions (env : Env) : List Action → Env × Option Exn
  | [] => (env, none)
  | _ :: rest =>
    let (r, env1) := popExec env
    match r with
    | .error e => (env1, some e)
    | .ok _ => executeRecoveryActions env1 rest

/-- Python's `error_event.recovery_successful = True` mutates the event
aliased into the error history: mark the most recent entry. -/
def markLastRecoverySuccessful (history : List ErrorEvent) : List ErrorEvent :=
  match history.reverse with
  | [] => []
  | ev :: rest => (({ ev with recoverySuccessful := true }) :: rest).reverse

/-- State bookkeeping of one recovery iteration: bump the attempt counter
and record the error event (`recovery_attempts += 1`, `record_error`). -/
def recordRecovery (st : AgentState) (errorType : ErrorType) (strategyName : String) :
    AgentState :=
  let st1 := { st with recoveryAttempts := st.recoveryAttempts + 1 }
  let errorEvent := ErrorRecovery.createErrorEvent errorType
    (describeAction st1.lastAction) (some strategyName)
  { st1 with
    errorHistory := st1.errorHistory ++ [errorEvent],
    lastErrorType := some errorEvent.errorType.value }

/-- The recovery `while` loop of `_execute_step_with_recovery`.  Each
continuing iteration increments `recovery_attempts` by one, so a fuel of
`max_recovery_attempts - recovery_attempts` makes the recursion mirror the
loop exactly (the loop guard is re-checked in the body as in the source). -/
def recoveryLoop (cfg : Config) :
    ℕ → Env → AgentState → ErrorRecovery.State → Bool →
    Env × AgentState × ErrorRecovery.State × StepOutcome
  | 0, env, st, er, success => (env, st, er, .ok success)
  | fuel + 1, env, st, er, success =>
    if st.recoveryAttempts < cfg.maxRecoveryAttempts then
      match st.lastVerification with
      | none => (env, st, er, .ok success)
      | some verification =>
        let errorType := ErrorRecovery.analyzeError st.lastAction verification
        if ErrorRecovery.canRecover er errorType st.recoveryAttempts = false then
          (env, st, er, .ok success)
        else
          let (strategyOpt, er1) := ErrorRecovery.getRecoveryStrategy er errorType
            (st.lastAction.getD (Action.ofType .wait)) st.recoveryAttempts
          match strategyOpt with
          | none => (env, st, er1, .ok success)
          | some strategy =>
            let (env1, exn) := executeRecoveryActions env strategy.preActions
            match exn with
            | some e => (env1, st, er1, .raised e)
            | none =>
              let st2 := recordRecovery st errorType strategy.name
              if strategy.retryOriginal then
                let (env2, st3, res) := executeStep cfg env1 st2
                match res with
                | .raised e => (env2, st3, er1, .raised e)
                | .ok true =>
                  let st4 := { st3 with
                    errorHistory := markLastRecoverySuccessful st3.errorHistory }
                  (env2, st4, er1, .ok true)
                | .ok false => recoveryLoop cfg fuel env2 st3 er1 false
              else recoveryLoop cfg fuel env1 st2 er1 success
    else (env, st, er, .ok success)

/-- `_execute_step_with_recovery`. -/
def executeStepWithRecovery (cfg : Config) (env : Env) (st : AgentState)
    (er : ErrorRecovery.State) :
    Env × AgentState × ErrorRecovery.State × StepOutcome :=
  let (env1, st1, res) := executeStep cfg env st
  match res with
  | .raised e => (env1, st1, er, .raised e)
  | .ok success =>
    if success = false ∧ cfg.errorRecoveryEnabled = true ∧ st1.lastVerification.isSome then
      recoveryLoop cfg (cfg.maxRecoveryAttempts - st1.recoveryAttempts) env1 st1 er success
    else (env1, st1, er, .ok success)

/-- Final outcome of `run`. -/
inductive RunOutcome where
  | completed
  | failedBudget
  | crashed (e : Exn)
deriving DecidableEq

/-- The `while` loop of `run`.  The guard `step_count < max_steps` together
with the per-iteration increment makes `max_steps - step_count` an exact
fuel.  A `.raised` step outcome reaches `run`'s outer `except Exception`
handler, which records the message, marks the run failed and re-raises:
outcome `.crashed`. -/
def runLoop (cfg : Config) :
    ℕ → Env → AgentState → ErrorRecovery.State →
    RunOutcome × AgentState × ErrorRecovery.State × Env
  | 0, env, st, er => (.failedBudget, st, er, env)
  | fuel + 1, env, st, er =>
    if st.isCompleted = true then (.completed, st, er, env)
    else
      let (env1, st1, er1, res) := executeStepWithRecovery cfg env st er
      match res with
      | .raised e => (.crashed e, { st1 with errorMessage := some e.msg }, er1, env1)
      | .ok _ =>
        runLoop cfg fuel env1
          { st1 with
            stepCount := st1.stepCount + 1,
            recoveryAttempts := 0,
            lastErrorType := none } er1

/-- Fresh state at the top of `run(task)`. -/
def initialState (cfg : Config) (task : String) : AgentState :=
  ⟨task, 0, cfg.maxSteps, none, [], false, none, [], 0, none, none⟩

/-- `run(task)` for the modelled configuration. -/
def run (cfg : Config) (env : Env) (task : String) :
    RunOutcome × AgentState × ErrorRecovery.State × Env :=
  runLoop cfg cfg.maxSteps env (initialState cfg task)
    ⟨cfg.maxRecoveryAttempts, none, []⟩

end Agent

/-! ## Mark table of the tool controller (`brain/openai_controller.py`)

The controller state relevant to the mark claims is `_current_som_map`, an
insertion-ordered dict from mark id to element, modelled as an association
list.  Tool handlers other than `click_mark` perform I/O and enter the model
as an oracle for their result (a string, or a raised exception caught by
`_execute_tool`'s handler). -/

namespace Controller

open Agent (Exn)

/-- Result triple of `_execute_tool`, extended with the coordinates
`click_mark` dispatched to the executor (if any), so that stale-geometry
clicks are observable in the model. -/
structure ToolCallResult where
  result : String
  success : Bool
  isComplete : Bool
  executedClick : Option (ℤ × ℤ)
deriving DecidableEq

/-- The `_ACTION_TOOLS` set: tools that change screen state. -/
def ACTION_TOOLS : List String :=
  ["click", "double_click", "right_click", "type_text",
   "hotkey", "scroll", "click_element", "click_mark", "use_skill"]

/-- The remaining dispatched tool names of `_execute_tool`. -/
def DISPATCHED_TOOLS : List String :=
  ["click_mark", "click", "double_click", "right_click", "type_text",
   "hotkey", "scroll", "find_element", "click_element", "use_skill"]

/-- Python `mark_id in self._current_som_map` / `self._current_som_map[mark_id]`. -/
def somLookup (m : List (ℕ × SoMElement)) (markId : ℕ) : Option SoMElement :=
  ((m.find? fun p => p.1 = markId).map Prod.snd)

def noMarksMessage : String := "没有可用的 SoM 标记。请先调用 look_at_screen_som 获取标记。"

/-- `_tool_click_mark`: resolve a mark id against the current table and click
its element's center.  Returns the tool result string and the coordinates
sent to the executor, if any.  `execOk` is the executor collaborator's
boolean reply. -/
def toolClickMark (somMap : List (ℕ × SoMElement)) (markId : ℕ)
    (clickType : String) (execOk : Bool) : String × Option (ℤ × ℤ) :=
  if somMap = [] then (noMarksMessage, none)
  else
    match somLookup somMap markId with
    | none => ("标记 [" ++ toString markId ++ "] 不存在。", none)
    | some elem =>
      let c := elem.boundingRect.center
      let actionDesc :=
        if clickType = "double" then "双击"
        else if clickType = "right" then "右键点击"
        else "点击"
      if execOk then
        ("成功" ++ actionDesc ++ "标记 [" ++ toString markId ++ "] " ++ elem.name, some c)
      else (actionDesc ++ "标记 [" ++ toString markId ++ "] 失败", some c)

/-- Oracle inputs for one `_execute_tool` call: the dispatched handler's
outcome, the executor reply for `click_mark`, and the annotation table a
`look_at_screen_som` call would install. -/
structure ToolEnv where
  handlerResult : Except Exn String
  execOk : Bool
  newMarks : List (ℕ × SoMElement)
deriving Inhabited

/-- `_execute_tool`.  The early-returning tools (`look_at_screen`,
`look_at_screen_som`, `task_complete`) bypass the invalidation statement;
every other known tool runs through it: if the tool is in `_ACTION_TOOLS`
and the mark table is non-empty, the table is cleared.  An exception from a
handler is caught, yields an error result, and skips the invalidation. -/
def executeTool (somMap : List (ℕ × SoMElement)) (toolName : String)
    (markId : ℕ) (clickType : String) (tenv : ToolEnv) :
    List (ℕ × SoMElement) × ToolCallResult :=
  if toolName = "look_at_screen" then
    match tenv.handlerResult with
    | .ok r => (somMap, ⟨r, true, false, none⟩)
    | .error e =>
        (somMap, ⟨"Error executing " ++ toolName ++ ": " ++ e.msg, false, false, none⟩)
  else if toolName = "look_at_screen_som" then
    -- the handler installs the new table before its VLM call; with no
    -- detected elements it returns early leaving the table unchanged
    if tenv.newMarks = [] then
      (somMap, ⟨"SoM: 未检测到可交互元素。请使用 look_at_screen 工具查看屏幕。", true, false, none⟩)
    else
      match tenv.handlerResult with
      | .ok r => (tenv.newMarks, ⟨r, true, false, none⟩)
      | .error e =>
          (tenv.newMarks, ⟨"SoM VLM 分析失败: " ++ e.msg, true, false, none⟩)
  else if toolName = "task_complete" then
    match tenv.handlerResult with
    | .ok r => (somMap, ⟨r, true, true, none⟩)
    | .error e =>
        (somMap, ⟨"Error executing " ++ toolName ++ ": " ++ e.msg, false, false, none⟩)
  else if DISPATCHED_TOOLS.contains toolName then
    let body : Except Exn (String × Option (ℤ × ℤ)) :=
      if toolName = "click_mark" then
        .ok (toolClickMark somMap markId clickType tenv.execOk)
      else tenv.handlerResult.map fun r => (r, none)
    match body with
    | .error e =>
        (somMap, ⟨"Error executing " ++ toolName ++ ": " ++ e.msg, false, false, none⟩)
    | .ok (r, click) =>
      let somMap1 :=
        if ACTION_TOOLS.contains toolName ∧ somMap ≠ [] then [] else somMap
      (somMap1, ⟨r, true, false, click⟩)
  else (somMap, ⟨"Unknown tool: " ++ toolName, false, false, none⟩)

end Controller

/-! ## Grounding engine (`brain/grounding.py`, `models/ui_element.py`)

String similarity is `difflib.SequenceMatcher(None, a, b).ratio()`, embedded
below as exact rational arithmetic.  Euclidean distances and the scores
built from them are irrational in general, so the scoring layer lives in ℝ;
comparisons there use classical decidability. -/

namespace Grounding

/-- Windows UI Automation control types (`models/ui_element.py`). -/
inductive ControlType where
  | button | edit | text | list | listItem | menu | menuItem | menuBar
  | comboBox | tab | tabItem | tree | treeItem | checkBox | radioButton
  | hyperlink | image | toolbar | statusBar | window | pane | group
  | document | custom | unknown
deriving DecidableEq

/-- The `value` string of each control type. -/
def ControlType.value : ControlType → String
  | .button => "Button"
  | .edit => "Edit"
  | .text => "Text"
  | .list => "List"
  | .listItem => "ListItem"
  | .menu => "Menu"
  | .menuItem => "MenuItem"
  | .menuBar => "MenuBar"
  | .comboBox => "ComboBox"
  | .tab => "Tab"
  | .tabItem => "TabItem"
  | .tree => "Tree"
  | .treeItem => "TreeItem"
  | .checkBox => "CheckBox"
  | .radioButton => "RadioButton"
  | .hyperlink => "Hyperlink"
  | .image => "Image"
  | .toolbar => "ToolBar"
  | .statusBar => "StatusBar"
  | .window => "Window"
  | .pane => "Pane"
  | .group => "Group"
  | .document => "Document"
  | .custom => "Custom"
  | .unknown => "Unknown"

/-- A UI element from the accessibility tree, restricted to the fields the
grounding paths read (automation id, focus flags, depth, children and the
native handle play no part there). -/
structure UIElement where
  name : String
  controlType : ControlType
  boundingRect : Option BoundingRect
  isEnabled : Bool
  isVisible : Bool
  parentName : String
  value : String
deriving DecidableEq

/-- Property `center` / `clickable_point`. -/
def UIElement.centerPoint (e : UIElement) : Option (ℤ × ℤ) :=
  e.boundingRect.map BoundingRect.center

/-- Container for the element tree; the grounding paths use only the
flattened `all_elements` view. -/
structure UIElementTree where
  allElements : List UIElement
deriving DecidableEq

/-- Structured description of a target element from the VLM. -/
structure ElementDescription where
  name : Option String
  textContent : Option String
  controlType : Option String
  parentDescription : Option String
  relativePosition : Option String
  approximateCoords : Option (ℤ × ℤ)
  additionalContext : Option String
deriving DecidableEq

/-- Python truthiness of an optional string (`None` and `""` are falsy). -/
def optTruthy (o : Option String) : Bool := (o.getD "") ≠ ""

/-! ### difflib.SequenceMatcher ratio

`SequenceMatcher(None, a, b)` with no junk predicate: `bjunk` is empty, so
the junk-gated extension loops of `find_longest_match` never fire and are
omitted; the autojunk rule (for `len(b) ≥ 200`, characters occurring more
than `len(b)/100 + 1` times are dropped from the index) is kept. -/

/-- Ascending list of positions of `c` in `b` (the `b2j` entry for `c`). -/
def charIndices (b : List Char) (c : Char) : List ℕ :=
  (List.range b.length).filter fun j => b.get? j = some c

/-- The autojunk rule of `SequenceMatcher.__chain_b`. -/
def popularChar (b : List Char) (c : Char) : Bool :=
  decide (200 ≤ b.length) && decide (b.length / 100 + 1 < (charIndices b c).length)

/-- The `b2j` index with popular characters removed. -/
def b2jOf (b : List Char) (c : Char) : List ℕ :=
  if popularChar b c then [] else charIndices b c

/-- Equality of two optional characters, false unless both are present. -/
def charsEq (x y : Option Char) : Bool :=
  match x, y with
  | some a, some b => a = b
  | _, _ => false

/-- Inner loop of `find_longest_match` for one row `i`: fold over the `b2j`
positions of `a[i]` (already restricted to `[blo, bhi)`), building the new
`j2len` row and updating the best match.  `j2len` rows are total functions
defaulting to 0, matching `dict.get(j-1, 0)` (position `-1` is never
present, hence the `j = 0` case). -/
def flmInner (i : ℕ) (j2lenOld : ℕ → ℕ) :
    List ℕ → (ℕ → ℕ) → ℕ × ℕ × ℕ → (ℕ → ℕ) × (ℕ × ℕ × ℕ)
  | [], newj2len, best => (newj2len, best)
  | j :: js, newj2len, (besti, bestj, bestsize) =>
    let k := (if j = 0 then 0 else j2lenOld (j - 1)) + 1
    let newj2len1 := fun x => if x = j then k else newj2len x
    let best1 :=
      if bestsize < k then (i + 1 - k, j + 1 - k, k) else (besti, bestj, bestsize)
    flmInner i j2lenOld js newj2len1 best1

/-- Outer loop of `find_longest_match` over the rows `i ∈ [alo, ahi)`. -/
def flmRows (a : List Char) (b2j : Char → List ℕ) (blo bhi : ℕ) :
    List ℕ → (ℕ → ℕ) → ℕ × ℕ × ℕ → ℕ × ℕ × ℕ
  | [], _, best => best
  | i :: is, j2len, best =>
    let js :=
      match a.get? i with
      | some c => (b2j c).filter fun j => decide (blo ≤ j) && decide (j < bhi)
      | none => []
    let (newj2len, best1) := flmInner i j2len js (fun _ => 0) best
    flmRows a b2j blo bhi is newj2len best1

/-- First extension loop: grow the match downwards over equal characters.
The iteration count is bounded by `besti`, used as fuel. -/
def extendLower (a b : List Char) (alo blo : ℕ) :
    ℕ → ℕ × ℕ × ℕ → ℕ × ℕ × ℕ
  | 0, best => best
  | fuel + 1, (besti, bestj, bestsize) =>
    if alo < besti ∧ blo < bestj ∧
        charsEq (a.get? (besti - 1)) (b.get? (bestj - 1)) = true then
      extendLower a b alo blo fuel (besti - 1, bestj - 1, bestsize + 1)
    else (besti, bestj, bestsize)

/-- Second extension loop: grow the match upwards over equal characters.
The iteration count is bounded by `ahi`, used as fuel. -/
def extendUpper (a b : List Char) (ahi bhi : ℕ) (besti bestj : ℕ) :
    ℕ → ℕ → ℕ
  | 0, bestsize => bestsize
  | fuel + 1, bestsize =>
    if besti + bestsize < ahi ∧ bestj + bestsize < bhi ∧
        charsEq (a.get? (besti + bestsize)) (b.get? (bestj + bestsize)) = true then
      extendUpper a b ahi bhi besti bestj fuel (bestsize + 1)
    else bestsize

/-- `find_longest_match(alo, ahi, blo, bhi)` for junk-free matching. -/
def findLongestMatch (a b : List Char) (alo ahi blo bhi : ℕ) : ℕ × ℕ × ℕ :=
  let best := flmRows a (b2jOf b) blo bhi (List.range' alo (ahi - alo))
    (fun _ => 0) (alo, blo, 0)
  let best1 := extendLower a b alo blo best.1 best
  (best1.1, best1.2.1, extendUpper a b ahi bhi best1.1 best1.2.1 ahi best1.2.2)

/-- Total size of all matching blocks (`get_matching_blocks`, keeping only
what `ratio` consumes).  Each recursive call strictly shrinks the combined
interval length, so a fuel of `|a| + |b| + 1` is exact. -/
def matchesTotal (a b : List Char) : ℕ → ℕ → ℕ → ℕ → ℕ → ℕ
  | 0, _, _, _, _ => 0
  | fuel + 1, alo, ahi, blo, bhi =>
    let m := findLongestMatch a b alo ahi blo bhi
    let i := m.1
    let j := m.2.1
    let k := m.2.2
    if k = 0 then 0
    else
      k + matchesTotal a b fuel alo i blo j +
        matchesTotal a b fuel (i + k) ahi (j + k) bhi

/-- `SequenceMatcher(None, a, b).ratio()` (`_calculate_ratio`). -/
def ratioVal (a b : List Char) : ℚ :=
  let matched := matchesTotal a b (a.length + b.length + 1) 0 a.length 0 b.length
  if a.length + b.length ≠ 0 then
    2 * (matched : ℚ) / ((a.length + b.length : ℕ) : ℚ)
  else 1

/-- `_name_similarity`: exact case-folded match, substring containment, or
edit-similarity ratio. -/
def nameSimilarity (s1 s2 : String) : ℚ :=
  if s1 = "" ∨ s2 = "" then 0
  else
    let l1 := trimStr (lowerStr s1)
    let l2 := trimStr (lowerStr s2)
    if l1 = l2 then 1
    else if strContains l2 l1 || strContains l1 l2 then 0.8
    else ratioVal l1.toList l2.toList

/-- The `TYPE_KEYWORDS` table of `ElementGrounder`, in source order. -/
def TYPE_KEYWORDS : List (ControlType × List String) :=
  [(.button, ["button", "btn", "click", "press"]),
   (.edit, ["input", "textbox", "text field", "edit", "search box", "search bar", "field"]),
   (.hyperlink, ["link", "hyperlink", "url"]),
   (.checkBox, ["checkbox", "check box", "toggle"]),
   (.radioButton, ["radio", "option button"]),
   (.comboBox, ["dropdown", "combo box", "select", "combobox"]),
   (.listItem, ["list item", "item", "option", "result", "search result"]),
   (.menuItem, ["menu item", "menu option", "menu"]),
   (.tabItem, ["tab"]),
   (.treeItem, ["tree item", "folder"]),
   (.text, ["text", "label"])]

/-- `_type_matches`: the element's type name occurs in the described type,
or a keyword of the element's type family does. -/
def typeMatches (elementType : ControlType) (describedType : String) : Bool :=
  let describedLower := lowerStr describedType
  if strContains describedLower (lowerStr elementType.value) then true
  else
    match TYPE_KEYWORDS.find? fun p => p.1 = elementType with
    | some p => p.2.any fun kw => strContains describedLower kw
    | none => false

/-! ### Real-valued scoring and resolution

Scores mix exact similarity values with euclidean-distance terms, so they
live in ℝ; the float comparisons of the source become exact real
comparisons, decided classically. -/

noncomputable section
open scoped Classical

/-- Euclidean distance between two integer points
(`((x1 - x2)**2 + (y1 - y2)**2) ** 0.5`). -/
def distR (p q : ℤ × ℤ) : ℝ :=
  Real.sqrt (((p.1 - q.1 : ℤ) : ℝ) ^ 2 + ((p.2 - q.2 : ℤ) : ℝ) ^ 2)

/-- Constructor parameters of `ElementGrounder`. -/
structure GrounderParams where
  nameMatchThreshold : ℝ
  spatialWeight : ℝ
  typeMatchBonus : ℝ
  minConfidence : ℝ

/-- The default constructor arguments (0.5, 0.3, 0.15, 0.3). -/
def defaultParams : GrounderParams := ⟨0.5, 0.3, 0.15, 0.3⟩

/-- Result of element grounding. -/
structure GroundingResult where
  element : Option UIElement
  confidence : ℝ
  matchMethod : String
  candidates : List (UIElement × ℝ)
  coordinates : Option (ℤ × ℤ)

/-- Property `success`: an element was resolved with confidence above 0.3. -/
def GroundingResult.success (r : GroundingResult) : Prop :=
  r.element.isSome = true ∧ r.confidence > 0.3

/-- The individual signals `_score_element` combines for one element and
description: which blocks apply, and the similarity / proximity value each
block would contribute. -/
structure ScoreSignals where
  nameSet : Bool
  nameSim : ℝ
  valueSet : Bool
  valueSim : ℝ
  textSet : Bool
  textSim : ℝ
  typeSet : Bool
  typeMatch : Bool
  spatialSet : Bool
  proximity : ℝ
  parentSet : Bool
  parentSim : ℝ

/-- The score `_score_element` accumulates, written as the sum of its five
blocks (the running `score += …` of the source evaluated once per block). -/
def scoreFromSignals (gp : GrounderParams) (sig : ScoreSignals) : ℝ :=
  (if sig.nameSet = true ∧ sig.nameSim > gp.nameMatchThreshold
    then sig.nameSim * 0.5 else 0) +
  (if sig.nameSet = true ∧ sig.valueSet = true ∧ sig.valueSim > gp.nameMatchThreshold
    then sig.valueSim * 0.3 else 0) +
  (if sig.textSet = true then sig.textSim * 0.4 else 0) +
  (if sig.typeSet = true ∧ sig.typeMatch = true then gp.typeMatchBonus else 0) +
  (if sig.spatialSet = true ∧ sig.proximity > 0.7
    then sig.proximity * gp.spatialWeight else 0) +
  (if sig.parentSet = true ∧ sig.parentSim > 0.5 then sig.parentSim * 0.1 else 0)

/-- The `method` trace string of `_score_element`: the tags of the blocks
that fired, joined with `"+"` (the numeric payload of the source's f-strings
is presentation only and omitted). -/
def methodFromSignals (gp : GrounderParams) (sig : ScoreSignals) : String :=
  let parts : List String :=
    (if sig.nameSet = true ∧ sig.nameSim > gp.nameMatchThreshold then ["name"] else []) ++
    (if sig.nameSet = true ∧ sig.valueSet = true ∧ sig.valueSim > gp.nameMatchThreshold
      then ["value"] else []) ++
    (if sig.textSet = true ∧ sig.textSim > 0.5 then ["text"] else []) ++
    (if sig.typeSet = true ∧ sig.typeMatch = true then ["type"] else []) ++
    (if sig.spatialSet = true ∧ sig.proximity > 0.7 then ["spatial"] else []) ++
    (if sig.parentSet = true ∧ sig.parentSim > 0.5 then ["parent"] else [])
  if parts = [] then "none" else String.intercalate ("+") parts

/-- The signal values `_score_element` reads for a given element and
description.  Similarity values are computed exactly as in the source; the
guards record the Python truthiness tests gating each block. -/
def signalsOf (element : UIElement) (description : ElementDescription)
    (screenSize : ℤ × ℤ) : ScoreSignals :=
  let prox : Option ℝ :=
    match description.approximateCoords, element.boundingRect with
    | some target, some rect =>
      let maxDist : ℝ :=
        Real.sqrt (((screenSize.1 : ℝ)) ^ 2 + ((screenSize.2 : ℝ)) ^ 2)
      some (1 - min (distR target rect.center / maxDist) 1)
    | _, _ => none
  { nameSet := optTruthy description.name
    nameSim := ((nameSimilarity element.name (description.name.getD "") : ℚ) : ℝ)
    valueSet := element.value ≠ ""
    valueSim := ((nameSimilarity element.value (description.name.getD "") : ℚ) : ℝ)
    textSet := optTruthy description.textContent
    textSim := ((nameSimilarity element.name (description.textContent.getD "") : ℚ) : ℝ)
    typeSet := optTruthy description.controlType
    typeMatch := typeMatches element.controlType (description.controlType.getD "")
    spatialSet := prox.isSome
    proximity := prox.getD 0
    parentSet := optTruthy description.parentDescription && element.parentName ≠ ""
    parentSim := ((nameSimilarity element.parentName
      (description.parentDescription.getD "") : ℚ) : ℝ) }

/-- `_score_element`: total score and method trace. -/
def scoreElement (gp : GrounderParams) (element : UIElement)
    (description : ElementDescription) (screenSize : ℤ × ℤ) : ℝ × String :=
  let sig := signalsOf element description screenSize
  (scoreFromSignals gp sig, methodFromSignals gp sig)

/-- Stable insertion of one element into a sorted list: `a` goes in front of
the first entry it relates to. -/
def insertBy {α : Type} (le : α → α → Prop) (a : α) : List α → List α
  | [] => [a]
  | b :: bs => if le a b then a :: b :: bs else b :: insertBy le a bs

/-- Stable insertion sort, standing in for Python's stable `sorted`/`sort`:
on a total transitive relation it produces the same list. -/
def insertionSortBy {α : Type} (le : α → α → Prop) : List α → List α
  | [] => []
  | x :: xs => insertBy le x (insertionSortBy le xs)

/-- The eligible set of `ground`: visible, with bounds, enabled. -/
def groundEligible (tree : UIElementTree) : List UIElement :=
  tree.allElements.filter fun e => e.isVisible && e.boundingRect.isSome && e.isEnabled

/-- Distance from an element's center to a point, for elements with a rect
(0 for the others, which never reach a distance computation). -/
def fallbackDist (coords : ℤ × ℤ) (e : UIElement) : ℝ :=
  match e.boundingRect with
  | some rect => distR rect.center coords
  | none => 0

/-- The `(element, distance)` accumulation loop of
`UIElementTree.find_near_point`: elements with a rect whose center lies
within `radius` of the point, paired with their distance. -/
def nearPairs (tree : UIElementTree) (x y : ℤ) (radius : ℤ) : List (UIElement × ℝ) :=
  tree.allElements.filterMap fun e =>
    match e.boundingRect with
    | none => none
    | some rect =>
      let d := distR rect.center (x, y)
      if d ≤ (radius : ℝ) then some (e, d) else none

/-- `UIElementTree.find_near_point`: elements with a rect within `radius` of
the point, sorted by ascending distance (Python's stable `sorted` on the
distance key). -/
def findNearPoint (tree : UIElementTree) (x y : ℤ) (radius : ℤ) : List UIElement :=
  (insertionSortBy (fun p q : UIElement × ℝ => p.2 ≤ q.2) (nearPairs tree x y radius)).map
    Prod.fst

/-- `ground_by_coordinates(approximate_coords, ui_tree, radius)`. -/
def groundByCoordinates (approximateCoords : ℤ × ℤ) (tree : UIElementTree)
    (radius : ℤ) : GroundingResult :=
  let nearby := findNearPoint tree approximateCoords.1 approximateCoords.2 radius
  let clickable := nearby.filter fun e => e.isEnabled && e.boundingRect.isSome
  match clickable with
  | [] => ⟨none, 0, "spatial_fallback", [], none⟩
  | best :: rest =>
    match best.boundingRect with
    | some rect =>
      let distance := distR rect.center approximateCoords
      let confidence := max 0 (1 - distance / (radius : ℝ))
      ⟨some best, confidence, "spatial_fallback",
        (rest.take 3).map (fun e => (e, 0.5)), best.centerPoint⟩
    | none => ⟨none, 0, "spatial_fallback", [], none⟩

/-- `ground(description, ui_tree, screen_size)`: score the eligible
elements, keep those above 0.1, sort by descending score (stable), and
resolve, falling back to the pure spatial search exactly as the source
does. -/
def ground (gp : GrounderParams) (description : ElementDescription)
    (tree : UIElementTree) (screenSize : ℤ × ℤ) : GroundingResult :=
  let eligible := groundEligible tree
  let candidates := eligible.filterMap fun e =>
    let sm := scoreElement gp e description screenSize
    if sm.1 > 0.1 then some (e, sm.1, sm.2) else none
  let sorted := insertionSortBy
    (fun p q : UIElement × ℝ × String => p.2.1 ≥ q.2.1) candidates
  match sorted with
  | [] =>
    match description.approximateCoords with
    | some coords => groundByCoordinates coords tree 150
    | none => ⟨none, 0, "none", [], none⟩
  | best :: restSorted =>
    if best.2.1 < gp.minConfidence then
      let failed : GroundingResult :=
        ⟨none, best.2.1, best.2.2,
          ((best :: restSorted).take 5).map (fun t => (t.1, t.2.1)), none⟩
      match description.approximateCoords with
      | some coords =>
        let spatialResult := groundByCoordinates coords tree 150
        if spatialResult.success then spatialResult else failed
      | none => failed
    else
      ⟨some best.1, best.2.1, best.2.2,
        (restSorted.take 5).map (fun t => (t.1, t.2.1)), best.1.centerPoint⟩

end

end Grounding

/-! ## Theorems: hybrid detector (C7, C10) -/

namespace HybridElementDetector

/-- Helper: in every branch, `detect` is source A followed by the source-B
elements filtered against A only. -/
theorem detect_eq_append_filter (uia cdp : List SoMElement) :
    detect uia cdp = uia ++ cdp.filter fun c => !(overlapsAny c uia (1/2)) := by
  unfold detect
  by_cases hc : cdp = []
  · simp [hc]
  · by_cases hu : uia = []
    · simp [hc, hu, overlapsAny, List.filter_eq_self]
    · simp [hc, hu]

/-- Helper: the guarded overlap test of the source decides exactly
`iouMeasure ≥ 1/2`. -/
theorem overlapsOne_iff_iou (r1 r2 : BoundingRect) :
    overlapsOne r1 r2 (1/2) = true ↔ 1/2 ≤ iouMeasure r1 r2 := by
  unfold overlapsOne iouMeasure
  by_cases hg : min r1.right r2.right ≤ max r1.left r2.left ∨
      min r1.bottom r2.bottom ≤ max r1.top r2.top
  · simp only [hg, if_true]
    have hinter : max 0 (min r1.right r2.right - max r1.left r2.left) *
        max 0 (min r1.bottom r2.bottom - max r1.top r2.top) = 0 := by
      rcases hg with h | h
      · have : max 0 (min r1.right r2.right - max r1.left r2.left) = 0 :=
          max_eq_left (by omega)
        rw [this, zero_mul]
      · have : max 0 (min r1.bottom r2.bottom - max r1.top r2.top) = 0 :=
          max_eq_left (by omega)
        rw [this, mul_zero]
    rw [hinter]
    have hden : (0 : ℚ) <
        ((max 1 (max 1 (r1.width * r1.height) + max 1 (r2.width * r2.height) - 0) : ℤ) : ℚ) := by
      have : (1 : ℤ) ≤ max 1 (max 1 (r1.width * r1.height) + max 1 (r2.width * r2.height) - 0) :=
        le_max_left _ _
      exact_mod_cast lt_of_lt_of_le zero_lt_one this
    simp only [Int.cast_zero, zero_div]
    norm_num
  · push_neg at hg
    obtain ⟨h1, h2⟩ := hg
    have e1 : max 0 (min r1.right r2.right - max r1.left r2.left) =
        min r1.right r2.right - max r1.left r2.left := max_eq_right (by omega)
    have e2 : max 0 (min r1.bottom r2.bottom - max r1.top r2.top) =
        min r1.bottom r2.bottom - max r1.top r2.top := max_eq_right (by omega)
    simp only [not_or, not_le, h1, h2, if_neg, e1, e2]
    rw [if_neg (by push_neg; exact ⟨h1, h2⟩)]
    simp [ge_iff_le]

/-- Helper: membership form of `_overlaps_any`. -/
theorem overlapsAny_iff (b : SoMElement) (others : List SoMElement) :
    overlapsAny b others (1/2) = true ↔
      ∃ a ∈ others, 1/2 ≤ iouMeasure b.boundingRect a.boundingRect := by
  unfold overlapsAny
  rw [List.any_eq_true]
  constructor
  · rintro ⟨a, ha, hov⟩
    exact ⟨a, ha, (overlapsOne_iff_iou _ _).1 hov⟩
  · rintro ⟨a, ha, hiou⟩
    exact ⟨a, ha, (overlapsOne_iff_iou _ _).2 hiou⟩

/-- C7: when both sources return results, a CDP element whose rect has
IoU ≥ 0.5 with some UIA rect is not appended (only the UIA element for that
control is retained), while a CDP element with IoU < 0.5 against every UIA
rect appears in the merged output alongside all UIA elements. -/
theorem detect_dedup (uia cdp : List SoMElement) (b : SoMElement)
    (huia : uia ≠ []) (hcdp : cdp ≠ []) (hb : b ∈ cdp) :
    ((∃ a ∈ uia, 1/2 ≤ iouMeasure b.boundingRect a.boundingRect) →
      detect uia cdp = uia ++ cdp.filter (fun c => !(overlapsAny c uia (1/2))) ∧
      b ∉ cdp.filter (fun c => !(overlapsAny c uia (1/2))) ∧
      ∀ a ∈ uia, a ∈ detect uia cdp) ∧
    ((∀ a ∈ uia, iouMeasure b.boundingRect a.boundingRect < 1/2) →
      b ∈ detect uia cdp ∧ ∀ a ∈ uia, a ∈ detect uia cdp) := by
  have heq := detect_eq_append_filter uia cdp
  constructor
  · intro hex
    refine ⟨heq, ?_, ?_⟩
    · intro hmem
      have hfalse := (List.mem_filter.1 hmem).2
      have hT := (overlapsAny_iff b uia).2 hex
      rw [hT] at hfalse
      simp at hfalse
    · intro a ha
      rw [heq]
      exact List.mem_append_left _ ha
  · intro hall
    have hov : overlapsAny b uia (1/2) = false := by
      cases h : overlapsAny b uia (1/2) with
      | false => rfl
      | true =>
        obtain ⟨a, ha, hiou⟩ := (overlapsAny_iff b uia).1 h
        exact absurd hiou (not_le.2 (hall a ha))
    constructor
    · rw [heq]
      refine List.mem_append_right _ (List.mem_filter.2 ⟨hb, ?_⟩)
      rw [hov]
      rfl
    · intro a ha
      rw [heq]
      exact List.mem_append_left _ ha

/-- Concrete elements for the detector witnesses. -/
def uiaElemA : SoMElement := ⟨0, "Save", "Button", ⟨0, 0, 40, 20⟩, "uia", true, true⟩

/-- A CDP duplicate of `uiaElemA` (identical rect, IoU 1). -/
def cdpElemDup : SoMElement := ⟨0, "Save", "button", ⟨0, 0, 40, 20⟩, "cdp", true, true⟩

/-- A CDP element far from `uiaElemA` (IoU 0). -/
def cdpElemFar : SoMElement := ⟨0, "Cancel", "button", ⟨100, 100, 140, 120⟩, "cdp", true, true⟩

/-- Witness for C7 at a concrete input: the duplicate is dropped, the far
element and the UIA element are both retained. -/
theorem detect_dedup_witness :
    cdpElemDup ∉ [cdpElemDup, cdpElemFar].filter
        (fun c => !(overlapsAny c [uiaElemA] (1/2))) ∧
    cdpElemFar ∈ detect [uiaElemA] [cdpElemDup, cdpElemFar] ∧
    uiaElemA ∈ detect [uiaElemA] [cdpElemDup, cdpElemFar] := by
  have h1 := detect_dedup [uiaElemA] [cdpElemDup, cdpElemFar] cdpElemDup
    (by decide) (by decide) (by decide)
  have h2 := detect_dedup [uiaElemA] [cdpElemDup, cdpElemFar] cdpElemFar
    (by decide) (by decide) (by decide)
  have hd := h1.1 ⟨uiaElemA, by decide, by
    norm_num [iouMeasure, cdpElemDup, uiaElemA, BoundingRect.width, BoundingRect.height]⟩
  have hf := h2.2 (by
    intro a ha
    rw [List.mem_singleton.1 ha]
    norm_num [iouMeasure, cdpElemFar, uiaElemA, BoundingRect.width, BoundingRect.height])
  exact ⟨hd.2.1, hf.1, hf.2 uiaElemA (by decide)⟩

/-- C10: `detect` keeps all of source A as an order-preserving prefix and
tests each source-B element only against A, so mutually overlapping B
elements that overlap no A element are all kept. -/
theorem detect_prefix_filter (uia cdp : List SoMElement) :
    detect uia cdp = uia ++ cdp.filter (fun c => !(overlapsAny c uia (1/2))) ∧
    ∀ b1 ∈ cdp, ∀ b2 ∈ cdp,
      overlapsAny b1 uia (1/2) = false → overlapsAny b2 uia (1/2) = false →
      b1 ∈ detect uia cdp ∧ b2 ∈ detect uia cdp := by
  refine ⟨detect_eq_append_filter uia cdp, ?_⟩
  intro b1 hb1 b2 hb2 h1 h2
  rw [detect_eq_append_filter uia cdp]
  constructor
  · exact List.mem_append_right _ (List.mem_filter.2 ⟨hb1, by rw [h1]; rfl⟩)
  · exact List.mem_append_right _ (List.mem_filter.2 ⟨hb2, by rw [h2]; rfl⟩)

/-- Two mutually overlapping CDP elements, neither overlapping the far-away
UIA element. -/
def cdpStack1 : SoMElement := ⟨0, "Card", "div", ⟨100, 100, 140, 120⟩, "cdp", true, true⟩

def cdpStack2 : SoMElement := ⟨0, "CardButton", "button", ⟨100, 100, 140, 120⟩, "cdp", true, true⟩

/-- Witness for C10 at a concrete input: two identical-rect CDP elements
overlapping no UIA element are both kept, after the full UIA prefix. -/
theorem detect_prefix_filter_witness :
    detect [uiaElemA] [cdpStack1, cdpStack2] = [uiaElemA, cdpStack1, cdpStack2] ∧
    cdpStack1 ∈ detect [uiaElemA] [cdpStack1, cdpStack2] ∧
    cdpStack2 ∈ detect [uiaElemA] [cdpStack1, cdpStack2] := by
  have h := detect_prefix_filter [uiaElemA] [cdpStack1, cdpStack2]
  have hboth := h.2 cdpStack1 (by decide) cdpStack2 (by decide) (by decide) (by decide)
  refine ⟨?_, hboth.1, hboth.2⟩
  rw [h.1]
  decide

end HybridElementDetector

/-! ## Theorems: task plan (C8) -/

/-- Helper: a list in which every index satisfying a predicate equals one
fixed index has at most one element satisfying it. -/
theorem length_filter_le_one {α : Type} (pr : α → Bool) :
    ∀ (l : List α) (k : ℕ),
      (∀ i (hi : i < l.length), pr (l.get ⟨i, hi⟩) = true → i = k) →
      (l.filter pr).length ≤ 1 := by
  intro l
  induction l with
  | nil => intro k _; simp
  | cons a t ih =>
    intro k h
    by_cases hpa : pr a = true
    · have hk : 0 = k := h 0 (by simp) hpa
      have ht : t.filter pr = [] := by
        rw [List.filter_eq_nil_iff]
        intro x hx hpx
        obtain ⟨⟨i, hi⟩, hget⟩ := List.mem_iff_get.1 hx
        have hpi : pr (t.get ⟨i, hi⟩) = true := by rw [hget]; exact hpx
        have := h (i + 1) (by simpa using Nat.succ_lt_succ hi) (by simpa using hpi)
        omega
      simp [List.filter_cons, hpa, ht]
    · have he : (a :: t).filter pr = t.filter pr := by
        simp [List.filter_cons, hpa]
      rw [he]
      apply ih (k - 1)
      intro i hi hpi
      have := h (i + 1) (by simpa using Nat.succ_lt_succ hi) (by simpa using hpi)
      omega

/-- Helper: after `advance`'s completion block, no subtask is in progress,
provided only the current index could have been; lengths and the index are
unchanged. -/
theorem completeCurrent_spec (p : TaskPlan)
    (h : ∀ i (hi : i < p.subtasks.length),
      (p.subtasks.get ⟨i, hi⟩).status = SubtaskStatus.inProgress → i = p.currentIndex) :
    (p.completeCurrent.subtasks.length = p.subtasks.length ∧
      p.completeCurrent.currentIndex = p.currentIndex) ∧
    ∀ i (hi : i < p.completeCurrent.subtasks.length),
      (p.completeCurrent.subtasks.get ⟨i, hi⟩).status ≠ SubtaskStatus.inProgress := by
  unfold TaskPlan.completeCurrent
  cases hcur : p.currentSubtask with
  | none =>
    dsimp only
    refine ⟨⟨rfl, rfl⟩, ?_⟩
    intro i hi hst
    have hik := h i hi hst
    have hnone : p.subtasks.get? p.currentIndex = none := hcur
    have := List.get?_eq_none.mp hnone
    omega
  | some s =>
    dsimp only
    by_cases hst : s.status = SubtaskStatus.inProgress
    · rw [if_pos hst]
      refine ⟨⟨List.length_set _ _ _, rfl⟩, ?_⟩
      intro i hi hsti
      have hlen : i < p.subtasks.length := by
        simpa [List.length_set] using hi
      by_cases hik : i = p.currentIndex
      · subst hik
        rw [List.get_set_eq hi] at hsti
        exact absurd hsti (by simp [Subtask.complete])
      · rw [List.get_set_ne (Ne.symm hik) hi] at hsti
        exact hik (h i hlen hsti)
    · rw [if_neg hst]
      refine ⟨⟨rfl, rfl⟩, ?_⟩
      intro i hi hsti
      by_cases hik : i = p.currentIndex
      · subst hik
        have hg : p.subtasks.get ⟨p.currentIndex, hi⟩ = s := by
          have hc := hcur
          unfold TaskPlan.currentSubtask at hc
          rw [List.get?_eq_some] at hc
          obtain ⟨h1, h2⟩ := hc
          simpa using h2
        rw [hg] at hsti
        exact hst hsti
      · exact hik (h i hi hsti)

/-- C8 counterexample: a plan whose single InProgress subtask (index 0) is
not the current one (index 1) satisfies the claim's precondition, yet
`advance` leaves two subtasks InProgress; and a plan whose index is already
past the end returns false although the index does not point at the last
subtask. -/
theorem advance_counterexample :
    (TaskPlan.countInProgress ⟨"t",
        [⟨"a", "", "", 3, .inProgress, 0, none⟩,
         ⟨"b", "", "", 3, .pending, 0, none⟩,
         ⟨"c", "", "", 3, .pending, 0, none⟩], 1⟩ ≤ 1 ∧
      (TaskPlan.advance ⟨"t",
        [⟨"a", "", "", 3, .inProgress, 0, none⟩,
         ⟨"b", "", "", 3, .pending, 0, none⟩,
         ⟨"c", "", "", 3, .pending, 0, none⟩], 1⟩).2.countInProgress = 2) ∧
    (TaskPlan.countInProgress ⟨"t", [⟨"a", "", "", 3, .pending, 0, none⟩], 1⟩ ≤ 1 ∧
      (TaskPlan.advance ⟨"t", [⟨"a", "", "", 3, .pending, 0, none⟩], 1⟩).1 = false ∧
      (1 : ℕ) ≠ ([⟨"a", "", "", 3, SubtaskStatus.pending, 0, none⟩] : List Subtask).length - 1) := by
  decide

/-- C8 amended: for every plan in which only the current subtask can be
InProgress, `advance` leaves at most one subtask InProgress (completing the
current one before starting the next), and returns false exactly when the
current index is at or past the last subtask (`current_index + 1 ≥ length`). -/
theorem advance_invariant (p : TaskPlan)
    (h : ∀ i (hi : i < p.subtasks.length),
      (p.subtasks.get ⟨i, hi⟩).status = SubtaskStatus.inProgress → i = p.currentIndex) :
    (p.advance).2.countInProgress ≤ 1 ∧
    ((p.advance).1 = false ↔ p.subtasks.length ≤ p.currentIndex + 1) := by
  obtain ⟨⟨hlen, hidx⟩, hq⟩ := completeCurrent_spec p h
  unfold TaskPlan.advance
  cases hnext : p.completeCurrent.subtasks.get? (p.completeCurrent.currentIndex + 1) with
  | none =>
    simp only [hnext]
    constructor
    · unfold TaskPlan.countInProgress
      apply length_filter_le_one _ _ 0
      intro i hi hpi
      simp only [decide_eq_true_eq] at hpi
      exact absurd hpi (hq i hi)
    · simp only [true_iff]
      have := List.get?_eq_none.mp hnext
      omega
  | some s =>
    simp only [hnext]
    constructor
    · unfold TaskPlan.countInProgress
      apply length_filter_le_one _ _ (p.currentIndex + 1)
      intro i hi hpi
      simp only [decide_eq_true_eq] at hpi
      simp only [List.length_set] at hi
      by_cases hik : i = p.currentIndex + 1
      · omega
      · rw [List.get_set_ne (by omega) (by simpa [List.length_set] using hi)] at hpi
        exact absurd hpi (hq i hi)
    · have hlt := (List.get?_eq_some.mp hnext).1
      simp only [hlen, hidx] at hlt
      constructor
      · intro hfalse
        exact absurd hfalse (by simp)
      · intro hle
        omega

/-- Witness for the amended C8: a two-subtask plan with the first subtask
InProgress at index 0 advances to exactly one InProgress subtask and
returns true. -/
theorem advance_invariant_witness :
    (TaskPlan.advance ⟨"t",
      [⟨"a", "", "", 3, .inProgress, 0, none⟩,
       ⟨"b", "", "", 3, .pending, 0, none⟩], 0⟩).2.countInProgress ≤ 1 ∧
    (TaskPlan.advance ⟨"t",
      [⟨"a", "", "", 3, .inProgress, 0, none⟩,
       ⟨"b", "", "", 3, .pending, 0, none⟩], 0⟩).1 = true := by
  have h := advance_invariant ⟨"t",
      [⟨"a", "", "", 3, .inProgress, 0, none⟩,
       ⟨"b", "", "", 3, .pending, 0, none⟩], 0⟩ (by decide)
  refine ⟨h.1, ?_⟩
  cases hadv : (TaskPlan.advance ⟨"t",
      [⟨"a", "", "", 3, .inProgress, 0, none⟩,
       ⟨"b", "", "", 3, .pending, 0, none⟩], 0⟩).1 with
  | true => rfl
  | false => exact absurd (h.2.1 hadv) (by decide)

/-! ## Theorems: recovery strategy selection (C3) and recovery ceiling (C6) -/

namespace ErrorRecovery

/-- The strategy list `get_recovery_strategy` works from for a kind: the
table entry, or the inline generic list when the table has none. -/
def strategiesFor (et : ErrorType) : List RecoveryStrategy :=
  if STRATEGIES et = [] then genericStrategies else STRATEGIES et

/-- Helper: the working strategy list is never empty. -/
theorem strategiesFor_ne_nil (et : ErrorType) : strategiesFor et ≠ [] := by
  cases et <;> simp [strategiesFor, STRATEGIES, genericStrategies]

/-- C3 counterexample: for `click_missed` (strategies `retry_click` with
`max_retries = 2` and `click_nearby` with `max_retries = 1`): with only
`click_nearby` exhausted, `attempt = 1` returns none although `retry_click`
is untouched; with every strategy exhausted, `attempt = 0` still returns
`click_nearby`. -/
theorem recoveryStrategy_cycle_counterexample :
    ((getRecoveryStrategy ⟨3, none, [("click_missed:click_nearby", 1)]⟩
        ErrorType.clickMissed (Action.ofType .click) 1).1 = none ∧
      countsGet [("click_missed:click_nearby", 1)] ("click_missed:retry_click") = 0 ∧
      (STRATEGIES ErrorType.clickMissed).map (fun s => s.maxRetries) = [2, 1]) ∧
    ((getRecoveryStrategy ⟨3, none,
        [("click_missed:retry_click", 2), ("click_missed:click_nearby", 1)]⟩
        ErrorType.clickMissed (Action.ofType .click) 0).1.map (fun s => s.name) =
        some "click_nearby" ∧
      ∀ s ∈ STRATEGIES ErrorType.clickMissed,
        s.maxRetries ≤ countsGet
          [("click_missed:retry_click", 2), ("click_missed:click_nearby", 1)]
          ("click_missed:" ++ s.name)) := by
  refine ⟨⟨rfl, rfl, rfl⟩, rfl, ?_⟩
  intro s hs
  fin_cases hs <;> decide

/-- C3 amended: with no `enabled_strategies` filter, the selected index is
`attempt mod count`; if the selected strategy's per-(kind,strategy) counter
is below its `max_retries` the counter is incremented and that strategy
returned; otherwise the strategy immediately after it is returned without
any counter check or increment when the selected one is not last, and none
is returned when it is last. -/
theorem recoveryStrategy_cycle_amended (er : State) (et : ErrorType) (a : Action)
    (attempt : ℕ) (hen : er.enabledStrategies = none)
    (s0 : RecoveryStrategy) (rest : List RecoveryStrategy)
    (hS : strategiesFor et = s0 :: rest) :
    (countsGet er.attemptCounts
        (et.value ++ ":" ++ ((s0 :: rest).getD (attempt % (s0 :: rest).length) s0).name) <
        ((s0 :: rest).getD (attempt % (s0 :: rest).length) s0).maxRetries →
      getRecoveryStrategy er et a attempt =
        (some ((s0 :: rest).getD (attempt % (s0 :: rest).length) s0),
          ⟨er.maxRecoveryAttempts, er.enabledStrategies,
            countsSet er.attemptCounts
              (et.value ++ ":" ++ ((s0 :: rest).getD (attempt % (s0 :: rest).length) s0).name)
              (countsGet er.attemptCounts
                (et.value ++ ":" ++
                  ((s0 :: rest).getD (attempt % (s0 :: rest).length) s0).name) + 1)⟩)) ∧
    (((s0 :: rest).getD (attempt % (s0 :: rest).length) s0).maxRetries ≤
        countsGet er.attemptCounts
          (et.value ++ ":" ++ ((s0 :: rest).getD (attempt % (s0 :: rest).length) s0).name) →
      (attempt % (s0 :: rest).length + 1 < (s0 :: rest).length →
        getRecoveryStrategy er et a attempt =
          (some ((s0 :: rest).getD (attempt % (s0 :: rest).length + 1) s0), er)) ∧
      ((s0 :: rest).length ≤ attempt % (s0 :: rest).length + 1 →
        getRecoveryStrategy er et a attempt = (none, er))) := by
  have hstr : (if STRATEGIES et = [] then genericStrategies else STRATEGIES et) =
      s0 :: rest := hS
  have hmod : attempt % (s0 :: rest).length < (s0 :: rest).length :=
    Nat.mod_lt _ (by simp)
  have hidx : (if attempt ≥ (s0 :: rest).length
      then attempt % (s0 :: rest).length else attempt) =
      attempt % (s0 :: rest).length := by
    by_cases hge : attempt ≥ (s0 :: rest).length
    · rw [if_pos hge]
    · rw [if_neg hge]
      exact (Nat.mod_eq_of_lt (by omega)).symm
  unfold getRecoveryStrategy
  rw [hen]
  simp only [hstr]
  rw [hidx]
  refine ⟨?_, ?_⟩
  · intro hlt
    rw [if_neg (by omega)]
  · intro hge
    refine ⟨?_, ?_⟩
    · intro hnext
      rw [if_pos (by omega), if_pos hnext]
    · intro hlast
      rw [if_pos (by omega), if_neg (by omega)]

/-- Witness for the amended C3: a fresh recovery state, kind
`element_not_found`, `attempt = 4` over its three strategies selects index
`4 mod 3 = 1` (`scroll_down`) and increments its counter. -/
theorem recoveryStrategy_cycle_amended_witness :
    (getRecoveryStrategy ⟨3, none, []⟩ ErrorType.elementNotFound
      (Action.ofType .click) 4).1.map (fun s => s.name) = some "scroll_down" ∧
    (getRecoveryStrategy ⟨3, none, []⟩ ErrorType.elementNotFound
      (Action.ofType .click) 4).2.attemptCounts.map Prod.fst =
      ["element_not_found:scroll_down"] := by
  have h := recoveryStrategy_cycle_amended ⟨3, none, []⟩ ErrorType.elementNotFound
    (Action.ofType .click) 4 rfl
    ⟨"wait_and_retry", "Wait for element to appear",
      [{ Action.ofType .wait with duration := some 1.5 }], true, 3⟩
    [⟨"scroll_down", "Scroll down to find element",
      [{ Action.ofType .scroll with scrollAmount := some (-3) }], true, 2⟩,
     ⟨"scroll_up", "Scroll up to find element",
      [{ Action.ofType .scroll with scrollAmount := some 3 }], true, 2⟩]
    rfl
  have hres := h.1 (by decide)
  rw [hres]
  constructor
  · rfl
  · rfl

end ErrorRecovery

namespace Agent

/-- Helper: `_execute_step` never touches the recovery-attempt counter. -/
theorem executeStep_recoveryAttempts (cfg : Config) (env : Env) (st : AgentState) :
    (executeStep cfg env st).2.1.recoveryAttempts = st.recoveryAttempts := by
  unfold executeStep
  repeat' split
  all_goals rfl

/-- Helper: bumping the bookkeeping state adds exactly one attempt. -/
theorem recordRecovery_attempts (st : AgentState) (et : ErrorType) (n : String) :
    (recordRecovery st et n).recoveryAttempts = st.recoveryAttempts + 1 := rfl

/-- Helper: the recovery loop never pushes the attempt counter past the
per-action ceiling. -/
theorem recoveryLoop_attempts_le (cfg : Config) :
    ∀ (fuel : ℕ) (env : Env) (st : AgentState) (er : ErrorRecovery.State) (success : Bool),
      st.recoveryAttempts ≤ cfg.maxRecoveryAttempts →
      (recoveryLoop cfg fuel env st er success).2.1.recoveryAttempts ≤
        cfg.maxRecoveryAttempts := by
  intro fuel
  induction fuel with
  | zero => intro env st er success h; exact h
  | succ fuel ih =>
    intro env st er success h
    unfold recoveryLoop
    by_cases hguard : st.recoveryAttempts < cfg.maxRecoveryAttempts
    · rw [if_pos hguard]
      cases hlv : st.lastVerification with
      | none => exact h
      | some verification =>
        dsimp only
        by_cases hcr : ErrorRecovery.canRecover er
            (ErrorRecovery.analyzeError st.lastAction verification) st.recoveryAttempts = false
        · rw [if_pos hcr]
          exact h
        · rw [if_neg hcr]
          rcases hgs : ErrorRecovery.getRecoveryStrategy er
              (ErrorRecovery.analyzeError st.lastAction verification)
              (st.lastAction.getD (Action.ofType .wait)) st.recoveryAttempts
            with ⟨strategyOpt, er1⟩
          dsimp only
          cases strategyOpt with
          | none => exact h
          | some strategy =>
            dsimp only
            rcases hra : executeRecoveryActions env strategy.preActions with ⟨env1, exn⟩
            dsimp only
            cases exn with
            | some e => exact h
            | none =>
              dsimp only
              by_cases hretry : strategy.retryOriginal = true
              · rw [if_pos hretry]
                rcases hes : executeStep cfg env1 (recordRecovery st
                    (ErrorRecovery.analyzeError st.lastAction verification) strategy.name)
                  with ⟨env2, st3, res⟩
                dsimp only
                have hst3 : st3.recoveryAttempts = st.recoveryAttempts + 1 := by
                  have hpre := executeStep_recoveryAttempts cfg env1 (recordRecovery st
                    (ErrorRecovery.analyzeError st.lastAction verification) strategy.name)
                  rw [hes, recordRecovery_attempts] at hpre
                  exact hpre
                cases res with
                | raised e =>
                  show st3.recoveryAttempts ≤ cfg.maxRecoveryAttempts
                  omega
                | ok success1 =>
                  cases success1 with
                  | true =>
                    show st3.recoveryAttempts ≤ cfg.maxRecoveryAttempts
                    omega
                  | false =>
                    apply ih
                    omega
              · rw [if_neg hretry]
                apply ih
                rw [recordRecovery_attempts]
                omega
    · rw [if_neg hguard]
      exact h

/-- C6: `can_recover` returns false exactly when the attempt total has
reached the instance ceiling or the kind is permission-denied (never
recoverable), and a step's recovery loop, entered with the per-step counter
reset, never drives the counter past the configured ceiling. -/
theorem canRecover_ceiling (er : ErrorRecovery.State) (et : ErrorType) (n : ℕ)
    (cfg : Config) (env : Env) (st : AgentState) (erS : ErrorRecovery.State)
    (h0 : st.recoveryAttempts = 0) :
    (ErrorRecovery.canRecover er et n = false ↔
      er.maxRecoveryAttempts ≤ n ∨ et = ErrorType.permissionDenied) ∧
    (executeStepWithRecovery cfg env st erS).2.1.recoveryAttempts ≤
      cfg.maxRecoveryAttempts := by
  constructor
  · unfold ErrorRecovery.canRecover
    by_cases h1 : n ≥ er.maxRecoveryAttempts
    · rw [if_pos h1]
      exact iff_of_true rfl (Or.inl h1)
    · rw [if_neg h1]
      by_cases h2 : et = ErrorType.permissionDenied
      · rw [if_pos h2]
        exact iff_of_true rfl (Or.inr h2)
      · rw [if_neg h2]
        refine iff_of_false (by simp) ?_
        rintro (hle | hpd)
        · omega
        · exact h2 hpd
  · unfold executeStepWithRecovery
    rcases hes : executeStep cfg env st with ⟨env1, st1, res⟩
    have hst1 : st1.recoveryAttempts = 0 := by
      have hpre := executeStep_recoveryAttempts cfg env st
      rw [hes] at hpre
      rw [hpre, h0]
    dsimp only
    cases res with
    | raised e =>
      show st1.recoveryAttempts ≤ cfg.maxRecoveryAttempts
      omega
    | ok success =>
      dsimp only
      by_cases hcond : success = false ∧ cfg.errorRecoveryEnabled = true ∧
          st1.lastVerification.isSome
      · rw [if_pos hcond]
        exact recoveryLoop_attempts_le cfg _ env1 st1 erS success (by omega)
      · rw [if_neg hcond]
        show st1.recoveryAttempts ≤ cfg.maxRecoveryAttempts
        omega

/-- Witness for C6 at concrete inputs: the ceiling 3, kind `unknown` at its
ceiling, and one concrete step execution. -/
theorem canRecover_ceiling_witness :
    (ErrorRecovery.canRecover ⟨3, none, []⟩ ErrorType.unknown 3 = false ↔
      (3 : ℕ) ≤ 3 ∨ ErrorType.unknown = ErrorType.permissionDenied) ∧
    (executeStepWithRecovery ⟨20, true, true, 3⟩ ⟨[], [], [], []⟩
      (initialState ⟨20, true, true, 3⟩ "t") ⟨3, none, []⟩).2.1.recoveryAttempts ≤ 3 :=
  canRecover_ceiling ⟨3, none, []⟩ ErrorType.unknown 3 ⟨20, true, true, 3⟩
    ⟨[], [], [], []⟩ (initialState ⟨20, true, true, 3⟩ "t") ⟨3, none, []⟩ rfl

/-- Safety of a collaborator schedule: the executor, verifier and capture
schedules contain no raised exceptions (the planner schedule is
unconstrained). -/
def EnvSafe (env : Env) : Prop :=
  (∀ r ∈ env.execR, r.isOk = true) ∧ (∀ r ∈ env.verifyR, r.isOk = true) ∧
  (∀ r ∈ env.captureR, r.isOk = true)

theorem popExec_safe (env : Env) (h : EnvSafe env) :
    (popExec env).1.isOk = true ∧ EnvSafe (popExec env).2 := by
  unfold popExec
  cases he : env.execR with
  | nil => exact ⟨rfl, h⟩
  | cons r rest =>
    refine ⟨h.1 r (by rw [he]; exact List.mem_cons_self r rest), ?_, h.2.1, h.2.2⟩
    intro x hx
    exact h.1 x (by rw [he]; exact List.mem_cons_of_mem r hx)

theorem popVerify_safe (env : Env) (h : EnvSafe env) :
    (popVerify env).1.isOk = true ∧ EnvSafe (popVerify env).2 := by
  unfold popVerify
  cases he : env.verifyR with
  | nil => exact ⟨rfl, h⟩
  | cons r rest =>
    refine ⟨h.2.1 r (by rw [he]; exact List.mem_cons_self r rest), h.1, ?_, h.2.2⟩
    intro x hx
    exact h.2.1 x (by rw [he]; exact List.mem_cons_of_mem r hx)

theorem popCapture_safe (env : Env) (h : EnvSafe env) :
    (popCapture env).1.isOk = true ∧ EnvSafe (popCapture env).2 := by
  unfold popCapture
  cases he : env.captureR with
  | nil => exact ⟨rfl, h⟩
  | cons r rest =>
    refine ⟨h.2.2 r (by rw [he]; exact List.mem_cons_self r rest), h.1, h.2.1, ?_⟩
    intro x hx
    exact h.2.2 x (by rw [he]; exact List.mem_cons_of_mem r hx)

theorem popPlan_safe (env : Env) (h : EnvSafe env) : EnvSafe (popPlan env).2 := by
  unfold popPlan
  cases he : env.planR with
  | nil => exact h
  | cons r rest => exact ⟨h.1, h.2.1, h.2.2⟩

/-- Helper: with a safe schedule, `_execute_step` cannot raise — only the
planner call can fail, and its failure is caught — and the remaining
schedule stays safe. -/
theorem executeStep_safe (cfg : Config) (env : Env) (st : AgentState)
    (h : EnvSafe env) :
    (∀ e, (executeStep cfg env st).2.2 ≠ .raised e) ∧
    EnvSafe (executeStep cfg env st).1 := by
  unfold executeStep
  have hcs := popCapture_safe env h
  rcases hc : popCapture env with ⟨cap, env1⟩
  rw [hc] at hcs
  dsimp only
  cases cap with
  | error e => exact Bool.noConfusion hcs.1
  | ok u =>
    dsimp only
    have hps := popPlan_safe env1 hcs.2
    rcases hp : popPlan env1 with ⟨planned, env2⟩
    rw [hp] at hps
    dsimp only
    cases planned with
    | error e => exact ⟨fun e1 h1 => StepOutcome.noConfusion h1, hps⟩
    | ok action =>
      dsimp only
      by_cases hdone : action.actionType = ActionType.done
      · rw [if_pos hdone]
        exact ⟨fun e1 h1 => StepOutcome.noConfusion h1, hps⟩
      · rw [if_neg hdone]
        have hes := popExec_safe env2 hps
        rcases he : popExec env2 with ⟨ex, env3⟩
        rw [he] at hes
        dsimp only
        cases ex with
        | error e => exact Bool.noConfusion hes.1
        | ok execSuccess =>
          dsimp only
          by_cases hexf : execSuccess = false
          · rw [if_pos hexf]
            exact ⟨fun e1 h1 => StepOutcome.noConfusion h1, hes.2⟩
          · rw [if_neg hexf]
            by_cases hv : cfg.verifyEachStep = true
            · rw [if_pos hv]
              have hvs := popVerify_safe env3 hes.2
              rcases hvr : popVerify env3 with ⟨vr, env4⟩
              rw [hvr] at hvs
              dsimp only
              cases vr with
              | error e => exact Bool.noConfusion hvs.1
              | ok result =>
                dsimp only
                by_cases hiss : (result.issues.getD "") = ""
                · rw [if_neg (by rw [hiss]; simp)]
                  exact ⟨fun e1 h1 => StepOutcome.noConfusion h1, hvs.2⟩
                · rw [if_pos hiss]
                  exact ⟨fun e1 h1 => StepOutcome.noConfusion h1, hvs.2⟩
            · rw [if_neg hv]
              exact ⟨fun e1 h1 => StepOutcome.noConfusion h1, hes.2⟩

/-- Helper: recovery pre-actions raise nothing under a safe schedule. -/
theorem executeRecoveryActions_safe :
    ∀ (acts : List Action) (env : Env), EnvSafe env →
      (executeRecoveryActions env acts).2 = none ∧
      EnvSafe (executeRecoveryActions env acts).1 := by
  intro acts
  induction acts with
  | nil => intro env h; exact ⟨rfl, h⟩
  | cons a rest ih =>
    intro env h
    unfold executeRecoveryActions
    have hes := popExec_safe env h
    rcases he : popExec env with ⟨r, env1⟩
    rw [he] at hes
    cases r with
    | error e => exact Bool.noConfusion hes.1
    | ok b => exact ih env1 hes.2

/-- Helper: the recovery loop cannot raise under a safe schedule. -/
theorem recoveryLoop_safe (cfg : Config) :
    ∀ (fuel : ℕ) (env : Env) (st : AgentState) (er : ErrorRecovery.State)
      (success : Bool), EnvSafe env →
      (∀ e, (recoveryLoop cfg fuel env st er success).2.2.2 ≠ .raised e) ∧
      EnvSafe (recoveryLoop cfg fuel env st er success).1 := by
  intro fuel
  induction fuel with
  | zero => intro env st er success h; exact ⟨fun e hh => StepOutcome.noConfusion hh, h⟩
  | succ fuel ih =>
    intro env st er success h
    unfold recoveryLoop
    by_cases hguard : st.recoveryAttempts < cfg.maxRecoveryAttempts
    · rw [if_pos hguard]
      cases hlv : st.lastVerification with
      | none => exact ⟨fun e hh => StepOutcome.noConfusion hh, h⟩
      | some verification =>
        dsimp only
        by_cases hcr : ErrorRecovery.canRecover er
            (ErrorRecovery.analyzeError st.lastAction verification) st.recoveryAttempts = false
        · rw [if_pos hcr]
          exact ⟨fun e hh => StepOutcome.noConfusion hh, h⟩
        · rw [if_neg hcr]
          rcases hgs : ErrorRecovery.getRecoveryStrategy er
              (ErrorRecovery.analyzeError st.lastAction verification)
              (st.lastAction.getD (Action.ofType .wait)) st.recoveryAttempts
            with ⟨strategyOpt, er1⟩
          dsimp only
          cases strategyOpt with
          | none => exact ⟨fun e hh => StepOutcome.noConfusion hh, h⟩
          | some strategy =>
            dsimp only
            have hras := executeRecoveryActions_safe strategy.preActions env h
            rcases hra : executeRecoveryActions env strategy.preActions with ⟨env1, exn⟩
            rw [hra] at hras
            cases exn with
            | some e => exact Option.noConfusion hras.1
            | none =>
              dsimp only
              by_cases hretry : strategy.retryOriginal = true
              · rw [if_pos hretry]
                have hsts := executeStep_safe cfg env1 (recordRecovery st
                  (ErrorRecovery.analyzeError st.lastAction verification) strategy.name) hras.2
                rcases hes : executeStep cfg env1 (recordRecovery st
                    (ErrorRecovery.analyzeError st.lastAction verification) strategy.name)
                  with ⟨env2, st3, res⟩
                rw [hes] at hsts
                dsimp only
                cases res with
                | raised e => exact absurd rfl (hsts.1 e)
                | ok success1 =>
                  cases success1 with
                  | true => exact ⟨fun e hh => StepOutcome.noConfusion hh, hsts.2⟩
                  | false => exact ih env2 st3 er1 false hsts.2
              · rw [if_neg hretry]
                exact ih env1 (recordRecovery st
                  (ErrorRecovery.analyzeError st.lastAction verification) strategy.name)
                  er1 success hras.2
    · rw [if_neg hguard]
      exact ⟨fun e hh => StepOutcome.noConfusion hh, h⟩

/-- Helper: a step with recovery cannot raise under a safe schedule. -/
theorem executeStepWithRecovery_safe (cfg : Config) (env : Env) (st : AgentState)
    (er : ErrorRecovery.State) (h : EnvSafe env) :
    (∀ e, (executeStepWithRecovery cfg env st er).2.2.2 ≠ .raised e) ∧
    EnvSafe (executeStepWithRecovery cfg env st er).1 := by
  unfold executeStepWithRecovery
  have hsts := executeStep_safe cfg env st h
  rcases hes : executeStep cfg env st with ⟨env1, st1, res⟩
  rw [hes] at hsts
  dsimp only
  cases res with
  | raised e => exact absurd rfl (hsts.1 e)
  | ok success =>
    dsimp only
    by_cases hcond : success = false ∧ cfg.errorRecoveryEnabled = true ∧
        st1.lastVerification.isSome
    · rw [if_pos hcond]
      exact recoveryLoop_safe cfg _ env1 st1 er success hsts.2
    · rw [if_neg hcond]
      exact ⟨fun e hh => StepOutcome.noConfusion hh, hsts.2⟩

/-- Helper: the run loop never crashes under a safe schedule. -/
theorem runLoop_safe (cfg : Config) :
    ∀ (fuel : ℕ) (env : Env) (st : AgentState) (er : ErrorRecovery.State),
      EnvSafe env → ∀ e, (runLoop cfg fuel env st er).1 ≠ .crashed e := by
  intro fuel
  induction fuel with
  | zero => intro env st er h e hh; cases hh
  | succ fuel ih =>
    intro env st er h e
    unfold runLoop
    by_cases hdone : st.isCompleted = true
    · rw [if_pos hdone]
      intro hh
      cases hh
    · rw [if_neg hdone]
      have hsts := executeStepWithRecovery_safe cfg env st er h
      rcases hes : executeStepWithRecovery cfg env st er with ⟨env1, st1, er1, res⟩
      rw [hes] at hsts
      dsimp only
      cases res with
      | raised e1 => exact absurd rfl (hsts.1 e1)
      | ok b => exact ih env1 _ er1 hsts.2 e

/-- C2 counterexample: an executor exception on the first step propagates
out of `run` (outcome `.crashed`), with no ErrorEvent recorded and the loop
not continuing — the step boundary catches only planner failures. -/
theorem run_stepBoundary_counterexample :
    (run ⟨2, true, true, 3⟩
      ⟨[Except.ok (Action.ofType .click)], [Except.error ⟨"exec boom"⟩], [], []⟩ "t").1 =
      .crashed ⟨"exec boom"⟩ ∧
    (run ⟨2, true, true, 3⟩
      ⟨[Except.ok (Action.ofType .click)], [Except.error ⟨"exec boom"⟩], [], []⟩
      "t").2.1.errorHistory = [] := by
  exact ⟨rfl, rfl⟩

/-- C2 amended: only planner exceptions are caught at the step boundary
(failing the step without recording an ErrorEvent); when the executor,
verifier and capture schedules raise nothing, the run never ends by a
propagated exception, whatever the planner does.  An exception from any
other collaborator propagates: `run` records the message, enters Failed and
re-raises. -/
theorem run_stepBoundary_amended (cfg : Config) (env : Env) (task : String)
    (h : EnvSafe env) : ∀ e, (run cfg env task).1 ≠ .crashed e := by
  intro e
  exact runLoop_safe cfg cfg.maxSteps env (initialState cfg task)
    ⟨cfg.maxRecoveryAttempts, none, []⟩ h e

/-- Witness for the amended C2: a run whose planner raises at every step
completes its budget without crashing. -/
theorem run_stepBoundary_amended_witness :
    (run ⟨1, true, true, 3⟩ ⟨[Except.error ⟨"plan boom"⟩], [], [], []⟩ "t").1 ≠
      .crashed ⟨"plan boom"⟩ :=
  run_stepBoundary_amended ⟨1, true, true, 3⟩ ⟨[Except.error ⟨"plan boom"⟩], [], [], []⟩
    "t" ⟨by simp, by simp, by simp⟩ ⟨"plan boom"⟩

/-- C4 counterexample: a step whose planning fails while a verification
result from an earlier step is still recorded enters the recovery path:
two recovery attempts are consumed and strategies executed, although the
step's only failure was the planner raising. -/
theorem planningFailure_counterexample :
    ((executeStepWithRecovery ⟨20, true, true, 3⟩
        ⟨[Except.error ⟨"plan boom"⟩, Except.error ⟨"plan boom"⟩, Except.error ⟨"plan boom"⟩],
          [], [], []⟩
        ⟨"t", 1, 20, some (Action.ofType .click), [Action.ofType .click], false, none, [],
          0, none, some ⟨false, false, "x", some "x"⟩⟩
        ⟨3, none, []⟩).2.1.recoveryAttempts = 2) ∧
    ((executeStepWithRecovery ⟨20, true, true, 3⟩
        ⟨[Except.error ⟨"plan boom"⟩, Except.error ⟨"plan boom"⟩, Except.error ⟨"plan boom"⟩],
          [], [], []⟩
        ⟨"t", 1, 20, some (Action.ofType .click), [Action.ofType .click], false, none, [],
          0, none, some ⟨false, false, "x", some "x"⟩⟩
        ⟨3, none, []⟩).2.2.1.attemptCounts = [("unknown:wait_and_retry", 2)]) ∧
    ((executeStepWithRecovery ⟨20, true, true, 3⟩
        ⟨[Except.error ⟨"plan boom"⟩, Except.error ⟨"plan boom"⟩, Except.error ⟨"plan boom"⟩],
          [], [], []⟩
        ⟨"t", 1, 20, some (Action.ofType .click), [Action.ofType .click], false, none, [],
          0, none, some ⟨false, false, "x", some "x"⟩⟩
        ⟨3, none, []⟩).2.2.2 = .ok false) ∧
    ((executeStepWithRecovery ⟨20, true, true, 3⟩
        ⟨[Except.error ⟨"plan boom"⟩, Except.error ⟨"plan boom"⟩, Except.error ⟨"plan boom"⟩],
          [], [], []⟩
        ⟨"t", 1, 20, some (Action.ofType .click), [Action.ofType .click], false, none, [],
          0, none, some ⟨false, false, "x", some "x"⟩⟩
        ⟨3, none, []⟩).2.1.errorHistory.length = 2) := by
  exact ⟨rfl, rfl, rfl, rfl⟩

/-- C4 amended: when planning fails and no verification result has been
recorded yet (`last_verification` is None), the step returns failure
immediately, consuming no recovery attempt, executing no strategy and
leaving the agent and recovery state untouched; the run loop then simply
proceeds to the next iteration within the step budget.  (A stale
verification result from an earlier step instead routes the failure into
the recovery path, as the counterexample shows.) -/
theorem planningFailure_amended (cfg : Config) (env : Env) (st : AgentState)
    (er : ErrorRecovery.State)
    (hcap : (popCapture env).1 = .ok ())
    (hplan : ∀ a, (popPlan (popCapture env).2).1 ≠ .ok a)
    (hlv : st.lastVerification = none) :
    (executeStepWithRecovery cfg env st er).2.1 = st ∧
    (executeStepWithRecovery cfg env st er).2.2.1 = er ∧
    (executeStepWithRecovery cfg env st er).2.2.2 = .ok false ∧
    (executeStepWithRecovery cfg env st er).2.1.recoveryAttempts = st.recoveryAttempts := by
  have hstep : executeStep cfg env st = ((popPlan (popCapture env).2).2, st, .ok false) := by
    unfold executeStep
    rcases hc : popCapture env with ⟨cap, env1⟩
    rw [hc] at hcap
    dsimp only at hcap ⊢
    subst hcap
    rcases hp : popPlan env1 with ⟨planned, env2⟩
    have hp2 : (popPlan env1) = (planned, env2) := hp
    cases planned with
    | error e => dsimp only
    | ok a =>
      exfalso
      apply hplan a
      simp only [hc, hp]
  unfold executeStepWithRecovery
  rw [hstep]
  dsimp only
  rw [if_neg (by rw [hlv]; simp)]
  exact ⟨rfl, rfl, rfl, rfl⟩

/-- Witness for the amended C4: first step of a run (no verification yet),
planner raises: the state and recovery bookkeeping are untouched. -/
theorem planningFailure_amended_witness :
    (executeStepWithRecovery ⟨20, true, true, 3⟩
      ⟨[Except.error ⟨"boom"⟩], [], [], []⟩
      (initialState ⟨20, true, true, 3⟩ "t") ⟨3, none, []⟩).2.1 =
        initialState ⟨20, true, true, 3⟩ "t" ∧
    (executeStepWithRecovery ⟨20, true, true, 3⟩
      ⟨[Except.error ⟨"boom"⟩], [], [], []⟩
      (initialState ⟨20, true, true, 3⟩ "t") ⟨3, none, []⟩).2.2.2 = .ok false := by
  have h := planningFailure_amended ⟨20, true, true, 3⟩
    ⟨[Except.error ⟨"boom"⟩], [], [], []⟩ (initialState ⟨20, true, true, 3⟩ "t")
    ⟨3, none, []⟩ rfl (fun a ha => Except.noConfusion ha) rfl
  exact ⟨h.1, h.2.2.1⟩

end Agent

/-! ## Theorems: mark-table invalidation (C5) -/

namespace Controller

/-- C5 counterexample: a `click` whose handler raises leaves the mark table
intact (the invalidation statement is skipped by the exception handler), and
a subsequent `click_mark` for the previously issued mark executes a click at
the stale coordinates instead of failing with the no-marks error. -/
theorem markInvalidation_counterexample :
    "click" ∈ ACTION_TOOLS ∧
    (executeTool [(1, ⟨1, "OK", "Button", ⟨10, 20, 30, 40⟩, "uia", true, true⟩)]
      "click" 1 "single" ⟨Except.error ⟨"boom"⟩, true, []⟩).1 =
      [(1, ⟨1, "OK", "Button", ⟨10, 20, 30, 40⟩, "uia", true, true⟩)] ∧
    (executeTool [(1, ⟨1, "OK", "Button", ⟨10, 20, 30, 40⟩, "uia", true, true⟩)]
      "click_mark" 1 "single" ⟨Except.ok "r", true, []⟩).2.executedClick =
      some (20, 30) := by
  exact ⟨by decide, rfl, rfl⟩

/-- C5 amended: a state-changing tool call whose handler returns without
raising always leaves the mark table empty, and a `click_mark` issued
against an empty table returns the no-marks error, dispatches no click, and
leaves the table empty.  (A handler that raises skips the invalidation, as
the counterexample records.) -/
theorem markInvalidation_amended (somMap : List (ℕ × SoMElement))
    (toolName : String) (markId : ℕ) (ct : String) (tenv : ToolEnv)
    (hact : toolName ∈ ACTION_TOOLS)
    (hok : ∃ r, tenv.handlerResult = Except.ok r) :
    (executeTool somMap toolName markId ct tenv).1 = [] ∧
    ∀ (mid2 : ℕ) (ct2 : String) (tenv2 : ToolEnv),
      (executeTool [] "click_mark" mid2 ct2 tenv2).2.result = noMarksMessage ∧
      (executeTool [] "click_mark" mid2 ct2 tenv2).2.executedClick = none ∧
      (executeTool [] "click_mark" mid2 ct2 tenv2).1 = [] := by
  constructor
  · have h1 : toolName ≠ "look_at_screen" := by
      intro hh; rw [hh] at hact; exact absurd hact (by decide)
    have h2 : toolName ≠ "look_at_screen_som" := by
      intro hh; rw [hh] at hact; exact absurd hact (by decide)
    have h3 : toolName ≠ "task_complete" := by
      intro hh; rw [hh] at hact; exact absurd hact (by decide)
    have hdisp : DISPATCHED_TOOLS.contains toolName = true := by
      fin_cases hact <;> decide
    have hacts : ACTION_TOOLS.contains toolName = true := by
      fin_cases hact <;> decide
    unfold executeTool
    rw [if_neg h1, if_neg h2, if_neg h3, if_pos hdisp]
    by_cases hcm : toolName = "click_mark"
    · rw [if_pos hcm]
      dsimp only
      by_cases hm : somMap = []
      · rw [if_neg (fun hand => hand.2 hm)]
        exact hm
      · rw [if_pos ⟨hacts, hm⟩]
    · rw [if_neg hcm]
      obtain ⟨r, hr⟩ := hok
      rw [hr]
      dsimp only [Except.map]
      by_cases hm : somMap = []
      · rw [if_neg (fun hand => hand.2 hm)]
        exact hm
      · rw [if_pos ⟨hacts, hm⟩]
  · intro mid2 ct2 tenv2
    exact ⟨rfl, rfl, rfl⟩

/-- Witness for the amended C5: a successful `type_text` call empties a
one-mark table, after which `click_mark` yields the no-marks error and no
click. -/
theorem markInvalidation_amended_witness :
    (executeTool [(1, ⟨1, "OK", "Button", ⟨10, 20, 30, 40⟩, "uia", true, true⟩)]
      "type_text" 0 "single" ⟨Except.ok "typed", true, []⟩).1 = [] ∧
    (executeTool [] "click_mark" 1 "single"
      ⟨Except.ok "r", true, []⟩).2.result = noMarksMessage ∧
    (executeTool [] "click_mark" 1 "single"
      ⟨Except.ok "r", true, []⟩).2.executedClick = none := by
  have h := markInvalidation_amended
    [(1, ⟨1, "OK", "Button", ⟨10, 20, 30, 40⟩, "uia", true, true⟩)]
    "type_text" 0 "single" ⟨Except.ok "typed", true, []⟩ (by decide) ⟨"typed", rfl⟩
  exact ⟨h.1, (h.2 1 "single" ⟨Except.ok "r", true, []⟩).1,
    (h.2 1 "single" ⟨Except.ok "r", true, []⟩).2.1⟩

end Controller

/-! ## Theorems: grounding (C1, C9) -/

namespace Grounding

/-- Helper: inserting into a list permutes consing. -/
theorem insertBy_perm {α : Type} (le : α → α → Prop) (a : α) :
    ∀ l : List α, (insertBy le a l).Perm (a :: l) := by
  intro l
  induction l with
  | nil => exact List.Perm.refl _
  | cons b bs ih =>
    unfold insertBy
    by_cases h : le a b
    · rw [if_pos h]
    · rw [if_neg h]
      exact (ih.cons b).trans (List.Perm.swap a b bs)

/-- Helper: the stable insertion sort permutes its input. -/
theorem insertionSortBy_perm {α : Type} (le : α → α → Prop) :
    ∀ l : List α, (insertionSortBy le l).Perm l := by
  intro l
  induction l with
  | nil => exact List.Perm.refl _
  | cons x xs ih =>
    unfold insertionSortBy
    exact (insertBy_perm le x (insertionSortBy le xs)).trans (ih.cons x)

/-- Helper: insertion preserves pairwise sortedness for a total transitive
relation. -/
theorem insertBy_pairwise {α : Type} (le : α → α → Prop)
    (htot : ∀ a b, le a b ∨ le b a) (htrans : ∀ a b c, le a b → le b c → le a c)
    (a : α) : ∀ l : List α, l.Pairwise le → (insertBy le a l).Pairwise le := by
  intro l
  induction l with
  | nil => intro _; exact List.pairwise_singleton le a
  | cons b bs ih =>
    intro hl
    rw [List.pairwise_cons] at hl
    unfold insertBy
    by_cases h : le a b
    · rw [if_pos h]
      rw [List.pairwise_cons]
      refine ⟨?_, List.pairwise_cons.2 hl⟩
      intro x hx
      rcases List.mem_cons.1 hx with rfl | hx2
      · exact h
      · exact htrans a b x h (hl.1 x hx2)
    · rw [if_neg h]
      rw [List.pairwise_cons]
      refine ⟨?_, ih hl.2⟩
      intro x hx
      have hx3 := (insertBy_perm le a bs).mem_iff.1 hx
      rcases List.mem_cons.1 hx3 with rfl | hx4
      · rcases htot b x with hbx | hxb
        · exact hbx
        · exact absurd hxb h
      · exact hl.1 x hx4

/-- Helper: the insertion sort is pairwise sorted for a total transitive
relation. -/
theorem insertionSortBy_pairwise {α : Type} (le : α → α → Prop)
    (htot : ∀ a b, le a b ∨ le b a) (htrans : ∀ a b c, le a b → le b c → le a c) :
    ∀ l : List α, (insertionSortBy le l).Pairwise le := by
  intro l
  induction l with
  | nil => exact List.Pairwise.nil
  | cons x xs ih =>
    unfold insertionSortBy
    exact insertBy_pairwise le htot htrans x _ ih

/-- Helper: membership characterization of the near-point pair list. -/
theorem mem_nearPairs (tree : UIElementTree) (x y : ℤ) (radius : ℤ)
    (p : UIElement × ℝ) :
    p ∈ nearPairs tree x y radius ↔
      p.1 ∈ tree.allElements ∧ p.1.boundingRect.isSome = true ∧
      p.2 = fallbackDist (x, y) p.1 ∧ p.2 ≤ (radius : ℝ) := by
  unfold nearPairs
  rw [List.mem_filterMap]
  constructor
  · rintro ⟨e, he, hfe⟩
    cases hrect : e.boundingRect with
    | none => rw [hrect] at hfe; cases hfe
    | some rect =>
      rw [hrect] at hfe
      dsimp only at hfe
      by_cases hd : distR rect.center (x, y) ≤ (radius : ℝ)
      · rw [if_pos hd] at hfe
        obtain rfl := (Option.some_inj.1 hfe).symm
        refine ⟨he, by rw [hrect]; rfl, ?_, hd⟩
        unfold fallbackDist
        rw [hrect]
      · rw [if_neg hd] at hfe
        cases hfe
  · rintro ⟨hmem, hsome, hdist, hle⟩
    refine ⟨p.1, hmem, ?_⟩
    obtain ⟨rect, hrect⟩ := Option.isSome_iff_exists.1 hsome
    rw [hrect]
    dsimp only
    have hfd : fallbackDist (x, y) p.1 = distR rect.center (x, y) := by
      unfold fallbackDist
      rw [hrect]
    rw [if_pos (by rw [← hfd, ← hdist]; exact hle)]
    rw [← hfd, ← hdist]

/-- Helper: full characterization of the spatial fallback on a tree holding
at least one enabled element with bounds within the radius: it returns the
nearest such element (including invisible ones) with confidence
`max 0 (1 − distance/radius)` and method `"spatial_fallback"`. -/
theorem groundByCoordinates_spec (coords : ℤ × ℤ) (tree : UIElementTree)
    (hex : ∃ e ∈ tree.allElements, e.isEnabled = true ∧ e.boundingRect.isSome = true ∧
      fallbackDist coords e ≤ 150) :
    ∃ b, (groundByCoordinates coords tree 150).element = some b ∧
      b ∈ tree.allElements ∧ b.isEnabled = true ∧ b.boundingRect.isSome = true ∧
      fallbackDist coords b ≤ 150 ∧
      (∀ e ∈ tree.allElements, e.isEnabled = true → e.boundingRect.isSome = true →
        fallbackDist coords e ≤ 150 → fallbackDist coords b ≤ fallbackDist coords e) ∧
      (groundByCoordinates coords tree 150).confidence =
        max 0 (1 - fallbackDist coords b / 150) ∧
      (groundByCoordinates coords tree 150).matchMethod = "spatial_fallback" := by
  obtain ⟨e0, he0, hen0, hr0, hd0⟩ := hex
  have hcoords_eta : ((coords.1, coords.2) : ℤ × ℤ) = coords := rfl
  -- the sorted pair list and its properties
  have hperm := insertionSortBy_perm (fun p q : UIElement × ℝ => p.2 ≤ q.2)
    (nearPairs tree coords.1 coords.2 150)
  have hsorted := insertionSortBy_pairwise (fun p q : UIElement × ℝ => p.2 ≤ q.2)
    (fun a b => le_total a.2 b.2) (fun a b c h1 h2 => le_trans h1 h2)
    (nearPairs tree coords.1 coords.2 150)
  set sortedP := insertionSortBy (fun p q : UIElement × ℝ => p.2 ≤ q.2)
    (nearPairs tree coords.1 coords.2 150) with hsP
  -- membership transfers
  have hmemP : ∀ p : UIElement × ℝ, p ∈ sortedP ↔
      (p.1 ∈ tree.allElements ∧ p.1.boundingRect.isSome = true ∧
        p.2 = fallbackDist coords p.1 ∧ p.2 ≤ (150 : ℝ)) := by
    intro p
    rw [hperm.mem_iff, mem_nearPairs, hcoords_eta]
    norm_num
  -- the clickable filter, pushed through the map
  have hfm : (sortedP.map Prod.fst).filter
      (fun e => e.isEnabled && e.boundingRect.isSome) =
      (sortedP.filter (fun p => p.1.isEnabled && p.1.boundingRect.isSome)).map Prod.fst := by
    induction sortedP with
    | nil => rfl
    | cons q qs ihq =>
      by_cases hq : (q.1.isEnabled && q.1.boundingRect.isSome) = true
      · simp [List.filter_cons, hq, ihq]
      · simp [List.filter_cons, hq, ihq]
  have he0p : ((e0, fallbackDist coords e0) : UIElement × ℝ) ∈ sortedP :=
    (hmemP _).2 ⟨he0, hr0, rfl, hd0⟩
  have he0f : ((e0, fallbackDist coords e0) : UIElement × ℝ) ∈
      sortedP.filter (fun p => p.1.isEnabled && p.1.boundingRect.isSome) :=
    List.mem_filter.2 ⟨he0p, by rw [hen0, hr0]; rfl⟩
  -- the head of the filtered list
  cases hflt : sortedP.filter (fun p => p.1.isEnabled && p.1.boundingRect.isSome) with
  | nil => rw [hflt] at he0f; cases he0f
  | cons bp restP =>
    have hbpf : bp ∈ sortedP.filter (fun p => p.1.isEnabled && p.1.boundingRect.isSome) := by
      rw [hflt]
      exact List.mem_cons_self bp restP
    have hbp_mem : bp ∈ sortedP := (List.filter_sublist _).subset hbpf
    have hbp := (hmemP bp).1 hbp_mem
    have hmin : ∀ e ∈ tree.allElements, e.isEnabled = true → e.boundingRect.isSome = true →
        fallbackDist coords e ≤ 150 → bp.2 ≤ fallbackDist coords e := by
      intro e he hen hr hd
      have hep : ((e, fallbackDist coords e) : UIElement × ℝ) ∈ sortedP :=
        (hmemP _).2 ⟨he, hr, rfl, hd⟩
      have hef : ((e, fallbackDist coords e) : UIElement × ℝ) ∈
          sortedP.filter (fun p => p.1.isEnabled && p.1.boundingRect.isSome) :=
        List.mem_filter.2 ⟨hep, by rw [hen, hr]; rfl⟩
      rw [hflt] at hef
      rcases List.mem_cons.1 hef with heq | htl
      · rw [← heq]
      · have hpw := hsorted.filter (fun p => p.1.isEnabled && p.1.boundingRect.isSome)
        rw [hflt, List.pairwise_cons] at hpw
        exact hpw.1 _ htl
    -- evaluate groundByCoordinates
    unfold groundByCoordinates findNearPoint
    rw [← hsP]
    dsimp only
    rw [hfm, hflt]
    dsimp only [List.map_cons]
    obtain ⟨rect, hrect⟩ := Option.isSome_iff_exists.1 hbp.2.1
    rw [hrect]
    dsimp only
    refine ⟨bp.1, rfl, hbp.1, ?_, hbp.2.1, ?_, ?_, ?_, rfl⟩
    · have hq := (List.mem_filter.1 hbpf).2
      rw [Bool.and_eq_true] at hq
      exact hq.1
    · rw [← hbp.2.2.1]
      exact_mod_cast hbp.2.2.2
    · intro e he hen hr hd
      rw [← hbp.2.2.1]
      exact hmin e he hen hr hd
    · have hdist_eq : distR rect.center coords = fallbackDist coords bp.1 := by
        unfold fallbackDist
        rw [hrect]
      rw [hdist_eq]
      norm_num

/-- C1 amended: if no eligible candidate scores at or above 0.3 but
`approximate_coords` is set and some enabled element with bounds lies within
105 pixels of the coordinates (so that the fallback confidence
`1 − distance/150` clears the 0.3 success threshold), then `ground` returns
success with method `"spatial_fallback"`, the element nearest to the
coordinates among the enabled elements with bounds within the 150-pixel
radius (visibility is not required by the fallback), and confidence
`max 0 (1 − distance/150)`. -/
theorem ground_spatialFallback_amended (description : ElementDescription)
    (tree : UIElementTree) (screenSize : ℤ × ℤ) (coords : ℤ × ℤ)
    (hcoords : description.approximateCoords = some coords)
    (hlow : ∀ e ∈ groundEligible tree,
      (scoreElement defaultParams e description screenSize).1 < 0.3)
    (hnear : ∃ e ∈ tree.allElements, e.isEnabled = true ∧ e.boundingRect.isSome = true ∧
      fallbackDist coords e < 105) :
    (ground defaultParams description tree screenSize).success ∧
    (ground defaultParams description tree screenSize).matchMethod = "spatial_fallback" ∧
    ∃ b, (ground defaultParams description tree screenSize).element = some b ∧
      b ∈ tree.allElements ∧ b.isEnabled = true ∧ b.boundingRect.isSome = true ∧
      (∀ e ∈ tree.allElements, e.isEnabled = true → e.boundingRect.isSome = true →
        fallbackDist coords e ≤ 150 → fallbackDist coords b ≤ fallbackDist coords e) ∧
      (ground defaultParams description tree screenSize).confidence =
        max 0 (1 - fallbackDist coords b / 150) := by
  obtain ⟨e0, he0, hen0, hr0, hd0⟩ := hnear
  have hex : ∃ e ∈ tree.allElements, e.isEnabled = true ∧ e.boundingRect.isSome = true ∧
      fallbackDist coords e ≤ 150 := ⟨e0, he0, hen0, hr0, by linarith⟩
  obtain ⟨b, hel, hbmem, hben, hbr, hble, hmin, hconf, hmeth⟩ :=
    groundByCoordinates_spec coords tree hex
  have hb105 : fallbackDist coords b < 105 :=
    lt_of_le_of_lt (hmin e0 he0 hen0 hr0 (by linarith)) hd0
  have hfrac : fallbackDist coords b / 150 < 0.7 := by
    rw [div_lt_iff (by norm_num : (0:ℝ) < 150)]
    linarith
  have hpos : (0:ℝ) < 1 - fallbackDist coords b / 150 := by linarith
  have hgt : (groundByCoordinates coords tree 150).confidence > 0.3 := by
    rw [hconf, max_eq_right (le_of_lt hpos)]
    linarith
  have hsucc : (groundByCoordinates coords tree 150).success := by
    refine ⟨?_, hgt⟩
    rw [hel]
    rfl
  have hgeq : ground defaultParams description tree screenSize =
      groundByCoordinates coords tree 150 := by
    unfold ground
    dsimp only
    split
    · rw [hcoords]
    · next best restS heq =>
      have hbestmem : best ∈ insertionSortBy
          (fun p q : UIElement × ℝ × String => p.2.1 ≥ q.2.1)
          ((groundEligible tree).filterMap fun e =>
            if (scoreElement defaultParams e description screenSize).1 > 0.1 then
              some (e, (scoreElement defaultParams e description screenSize).1,
                (scoreElement defaultParams e description screenSize).2)
            else none) := by
        rw [heq]
        exact List.mem_cons_self _ _
      have hbestc := (insertionSortBy_perm
        (fun p q : UIElement × ℝ × String => p.2.1 ≥ q.2.1) _).mem_iff.1 hbestmem
      rw [List.mem_filterMap] at hbestc
      obtain ⟨e, hemem, hfe⟩ := hbestc
      by_cases hsc : (scoreElement defaultParams e description screenSize).1 > 0.1
      · rw [if_pos hsc] at hfe
        have hbeq := Option.some_inj.1 hfe
        have hlt : best.2.1 < defaultParams.minConfidence := by
          rw [← hbeq]
          exact hlow e hemem
        rw [if_pos hlt, hcoords]
        dsimp only
        rw [if_pos hsucc]
      · rw [if_neg hsc] at hfe
        cases hfe
  rw [hgeq]
  exact ⟨hsucc, hmeth, b, hel, hbmem, hben, hbr, hmin, hconf⟩

/-- Helper: distance evaluation at integer points with an exact root. -/
theorem distR_eval (x1 y1 x2 y2 : ℤ) (d : ℝ) (hd : 0 ≤ d)
    (hsq : (((x1 - x2 : ℤ) : ℝ)) ^ 2 + (((y1 - y2 : ℤ) : ℝ)) ^ 2 = d ^ 2) :
    distR (x1, y1) (x2, y2) = d := by
  unfold distR
  dsimp only
  rw [hsq]
  exact Real.sqrt_sq hd

/-- Helper: distance of an element with a rect. -/
theorem fallbackDist_eval (coords : ℤ × ℤ) (e : UIElement) (rect : BoundingRect)
    (hrect : e.boundingRect = some rect) :
    fallbackDist coords e = distR rect.center coords := by
  unfold fallbackDist
  rw [hrect]

/-- The description of the spatial scenarios: only approximate coordinates
are set. -/
def dSpatial : ElementDescription := ⟨none, none, none, none, none, some (500, 300), none⟩

/-- A visible enabled element whose center lies 120 px from the coords. -/
def vElemA : UIElement := ⟨"", .button, some ⟨572, 396, 572, 396⟩, true, true, "", ""⟩

/-- An invisible enabled element whose center lies 30 px from the coords. -/
def iElemB : UIElement := ⟨"", .button, some ⟨518, 324, 518, 324⟩, true, false, "", ""⟩

/-- A visible enabled element whose center lies 100 px from the coords. -/
def wElemW : UIElement := ⟨"", .button, some ⟨560, 380, 560, 380⟩, true, true, "", ""⟩

def treeA : UIElementTree := ⟨[vElemA]⟩

def treeB : UIElementTree := ⟨[vElemA, iElemB]⟩

def treeW : UIElementTree := ⟨[wElemW]⟩

/-- Helper: against `dSpatial`, an element's score consists of the spatial
proximity term alone, and stays below 0.3 whenever its center does not
coincide with the coordinates. -/
theorem scoreElement_dSpatial_lt (e : UIElement) (rect : BoundingRect)
    (hrect : e.boundingRect = some rect)
    (hdpos : 0 < distR (500, 300) rect.center) :
    (scoreElement defaultParams e dSpatial (1920, 1080)).1 < 0.3 := by
  unfold scoreElement scoreFromSignals signalsOf dSpatial
  dsimp only
  rw [hrect]
  dsimp only
  have hopt : optTruthy none = false := rfl
  rw [if_neg (fun hc => by rw [hopt] at hc; exact Bool.noConfusion hc.1)]
  rw [if_neg (fun hc => by rw [hopt] at hc; exact Bool.noConfusion hc.1)]
  rw [if_neg (fun hc => by rw [hopt] at hc; exact Bool.noConfusion hc)]
  rw [if_neg (fun hc => by rw [hopt] at hc; exact Bool.noConfusion hc.1)]
  simp only [hopt, Bool.false_and, Bool.false_eq_true, false_and, if_false,
    Option.isSome_some, Option.getD_some]
  have hM : (0:ℝ) < Real.sqrt ((((1920:ℤ)):ℝ) ^ 2 + (((1080:ℤ)):ℝ) ^ 2) := by
    apply Real.sqrt_pos.2
    push_cast
    norm_num
  set q : ℝ := distR (500, 300) rect.center /
    Real.sqrt ((((1920:ℤ)):ℝ) ^ 2 + (((1080:ℤ)):ℝ) ^ 2) with hq
  have hqpos : 0 < q := div_pos hdpos hM
  have hval : 1 - min q 1 < 1 := by
    have : (0:ℝ) < min q 1 := lt_min hqpos (by norm_num)
    linarith
  have hsw : defaultParams.spatialWeight = 0.3 := rfl
  rw [hsw]
  by_cases hcond : (True ∧ 1 - min q 1 > 0.7)
  · rw [if_pos hcond]
    have : (1 - min q 1) * 0.3 < 1 * 0.3 :=
      mul_lt_mul_of_pos_right hval (by norm_num)
    linarith
  · rw [if_neg hcond]
    norm_num

/-- Witness for the amended C1: a tree with a single visible enabled
element 100 px from the coordinates; `ground` succeeds via the spatial
fallback. -/
theorem ground_spatialFallback_amended_witness :
    (ground defaultParams dSpatial treeW (1920, 1080)).success ∧
    (ground defaultParams dSpatial treeW (1920, 1080)).matchMethod = "spatial_fallback" := by
  have hcw : (⟨560, 380, 560, 380⟩ : BoundingRect).center = ((560:ℤ), 380) := by decide
  have hdw : fallbackDist (500, 300) wElemW = 100 := by
    rw [fallbackDist_eval (500, 300) wElemW ⟨560, 380, 560, 380⟩ rfl, hcw]
    exact distR_eval 560 380 500 300 100 (by norm_num) (by push_cast; norm_num)
  have h := ground_spatialFallback_amended dSpatial treeW (1920, 1080) (500, 300) rfl
    ?hlow ?hnear
  · exact ⟨h.1, h.2.1⟩
  case hlow =>
    intro e he
    have hel : groundEligible treeW = [wElemW] := rfl
    rw [hel, List.mem_singleton] at he
    subst he
    apply scoreElement_dSpatial_lt wElemW ⟨560, 380, 560, 380⟩ rfl
    rw [show distR ((500:ℤ), 300) ((⟨560, 380, 560, 380⟩ : BoundingRect).center) =
        distR ((500:ℤ), 300) ((560:ℤ), 380) by rw [hcw]]
    rw [distR_eval 500 300 560 380 100 (by norm_num) (by push_cast; norm_num)]
    norm_num
  case hnear =>
    refine ⟨wElemW, List.mem_singleton.2 rfl, rfl, rfl, ?_⟩
    rw [hdw]
    norm_num

/-- Helper: when every eligible element scores below 0.3 and the spatial
fallback at the description's coordinates succeeds, `ground` returns the
fallback result itself. -/
theorem ground_fallback_eq (description : ElementDescription) (tree : UIElementTree)
    (screenSize : ℤ × ℤ) (coords : ℤ × ℤ)
    (hcoords : description.approximateCoords = some coords)
    (hlow : ∀ e ∈ groundEligible tree,
      (scoreElement defaultParams e description screenSize).1 < 0.3)
    (hsucc : (groundByCoordinates coords tree 150).success) :
    ground defaultParams description tree screenSize =
      groundByCoordinates coords tree 150 := by
  unfold ground
  dsimp only
  split
  · rw [hcoords]
  · next best restS heq =>
    have hbestmem : best ∈ insertionSortBy
        (fun p q : UIElement × ℝ × String => p.2.1 ≥ q.2.1)
        ((groundEligible tree).filterMap fun e =>
          if (scoreElement defaultParams e description screenSize).1 > 0.1 then
            some (e, (scoreElement defaultParams e description screenSize).1,
              (scoreElement defaultParams e description screenSize).2)
          else none) := by
      rw [heq]
      exact List.mem_cons_self _ _
    have hbestc := (insertionSortBy_perm
      (fun p q : UIElement × ℝ × String => p.2.1 ≥ q.2.1) _).mem_iff.1 hbestmem
    rw [List.mem_filterMap] at hbestc
    obtain ⟨e, hemem, hfe⟩ := hbestc
    by_cases hsc : (scoreElement defaultParams e description screenSize).1 > 0.1
    · rw [if_pos hsc] at hfe
      have hbeq := Option.some_inj.1 hfe
      have hlt : best.2.1 < defaultParams.minConfidence := by
        rw [← hbeq]
        exact hlow e hemem
      rw [if_pos hlt, hcoords]
      dsimp only
      rw [if_pos hsucc]
    · rw [if_neg hsc] at hfe
      cases hfe

/-- Helper: when every eligible element scores below 0.3 and the spatial
fallback at the description's coordinates does not succeed, `ground` does
not succeed either. -/
theorem ground_fallback_fail (description : ElementDescription) (tree : UIElementTree)
    (screenSize : ℤ × ℤ) (coords : ℤ × ℤ)
    (hcoords : description.approximateCoords = some coords)
    (hlow : ∀ e ∈ groundEligible tree,
      (scoreElement defaultParams e description screenSize).1 < 0.3)
    (hnone : ¬ (groundByCoordinates coords tree 150).success) :
    ¬ (ground defaultParams description tree screenSize).success := by
  unfold ground
  dsimp only
  split
  · rw [hcoords]
    dsimp only
    exact hnone
  · next best restS heq =>
    have hbestmem : best ∈ insertionSortBy
        (fun p q : UIElement × ℝ × String => p.2.1 ≥ q.2.1)
        ((groundEligible tree).filterMap fun e =>
          if (scoreElement defaultParams e description screenSize).1 > 0.1 then
            some (e, (scoreElement defaultParams e description screenSize).1,
              (scoreElement defaultParams e description screenSize).2)
          else none) := by
      rw [heq]
      exact List.mem_cons_self _ _
    have hbestc := (insertionSortBy_perm
      (fun p q : UIElement × ℝ × String => p.2.1 ≥ q.2.1) _).mem_iff.1 hbestmem
    rw [List.mem_filterMap] at hbestc
    obtain ⟨e, hemem, hfe⟩ := hbestc
    by_cases hsc : (scoreElement defaultParams e description screenSize).1 > 0.1
    · rw [if_pos hsc] at hfe
      have hbeq := Option.some_inj.1 hfe
      have hlt : best.2.1 < defaultParams.minConfidence := by
        rw [← hbeq]
        exact hlow e hemem
      rw [if_pos hlt, hcoords]
      dsimp only
      rw [if_neg hnone]
      rintro ⟨h1, -⟩
      exact Bool.noConfusion h1
    · rw [if_neg hsc] at hfe
      cases hfe

/-- C1 counterexample.  Scenario A (`treeA`): every eligible element scores
below 0.3, the coordinates are set, and the visible enabled element
`vElemA` lies 120 px from them, within the 150-px fallback radius — yet
`ground` does not succeed, because the fallback confidence
`1 − 120/150 = 0.2` does not clear the strict `> 0.3` success check.
Scenario B (`treeB`): under the same activation conditions the fallback
returns the *invisible* element `iElemB` (30 px away), not the nearest
eligible (visible) element `vElemA`: the spatial search drops the
visibility requirement. -/
theorem ground_spatialFallback_counterexample :
    (dSpatial.approximateCoords = some (500, 300) ∧
      vElemA ∈ groundEligible treeA ∧
      fallbackDist (500, 300) vElemA ≤ 150 ∧
      (∀ e ∈ groundEligible treeA,
        (scoreElement defaultParams e dSpatial (1920, 1080)).1 < 0.3) ∧
      ¬ (ground defaultParams dSpatial treeA (1920, 1080)).success) ∧
    (vElemA ∈ groundEligible treeB ∧
      fallbackDist (500, 300) vElemA ≤ 150 ∧
      (∀ e ∈ groundEligible treeB,
        (scoreElement defaultParams e dSpatial (1920, 1080)).1 < 0.3) ∧
      (ground defaultParams dSpatial treeB (1920, 1080)).element = some iElemB ∧
      iElemB.isVisible = false ∧ iElemB ∉ groundEligible treeB) := by
  have hcA : (⟨572, 396, 572, 396⟩ : BoundingRect).center = ((572:ℤ), 396) := by decide
  have hdA : fallbackDist (500, 300) vElemA = 120 := by
    rw [fallbackDist_eval (500, 300) vElemA ⟨572, 396, 572, 396⟩ rfl, hcA]
    exact distR_eval 572 396 500 300 120 (by norm_num) (by push_cast; norm_num)
  have hcB : (⟨518, 324, 518, 324⟩ : BoundingRect).center = ((518:ℤ), 324) := by decide
  have hdB : fallbackDist (500, 300) iElemB = 30 := by
    rw [fallbackDist_eval (500, 300) iElemB ⟨518, 324, 518, 324⟩ rfl, hcB]
    exact distR_eval 518 324 500 300 30 (by norm_num) (by push_cast; norm_num)
  have hlowA : ∀ e ∈ groundEligible treeA,
      (scoreElement defaultParams e dSpatial (1920, 1080)).1 < 0.3 := by
    intro e he
    have hel : groundEligible treeA = [vElemA] := rfl
    rw [hel, List.mem_singleton] at he
    subst he
    apply scoreElement_dSpatial_lt vElemA ⟨572, 396, 572, 396⟩ rfl
    rw [show distR ((500:ℤ), 300) ((⟨572, 396, 572, 396⟩ : BoundingRect).center) =
        distR ((500:ℤ), 300) ((572:ℤ), 396) by rw [hcA]]
    rw [distR_eval 500 300 572 396 120 (by norm_num) (by push_cast; norm_num)]
    norm_num
  have hlowB : ∀ e ∈ groundEligible treeB,
      (scoreElement defaultParams e dSpatial (1920, 1080)).1 < 0.3 := by
    intro e he
    have hel : groundEligible treeB = [vElemA] := rfl
    rw [hel, List.mem_singleton] at he
    subst he
    apply scoreElement_dSpatial_lt vElemA ⟨572, 396, 572, 396⟩ rfl
    rw [show distR ((500:ℤ), 300) ((⟨572, 396, 572, 396⟩ : BoundingRect).center) =
        distR ((500:ℤ), 300) ((572:ℤ), 396) by rw [hcA]]
    rw [distR_eval 500 300 572 396 120 (by norm_num) (by push_cast; norm_num)]
    norm_num
  have hexA : ∃ e ∈ treeA.allElements, e.isEnabled = true ∧ e.boundingRect.isSome = true ∧
      fallbackDist (500, 300) e ≤ 150 :=
    ⟨vElemA, List.mem_singleton.2 rfl, rfl, rfl, by rw [hdA]; norm_num⟩
  obtain ⟨bA, hbelA, hbmemA, -, -, -, -, hbconfA, -⟩ :=
    groundByCoordinates_spec (500, 300) treeA hexA
  have hbeqA : bA = vElemA := List.mem_singleton.1 hbmemA
  subst hbeqA
  have hnsA : ¬ (groundByCoordinates (500, 300) treeA 150).success := by
    rintro ⟨-, h2⟩
    rw [hbconfA, hdA] at h2
    have hmx : max (0:ℝ) (1 - 120 / 150) = 1/5 := by
      rw [max_eq_right (by norm_num)]
      norm_num
    rw [hmx] at h2
    norm_num at h2
  have hexB : ∃ e ∈ treeB.allElements, e.isEnabled = true ∧ e.boundingRect.isSome = true ∧
      fallbackDist (500, 300) e ≤ 150 :=
    ⟨iElemB, by decide, rfl, rfl, by rw [hdB]; norm_num⟩
  obtain ⟨bB, hbelB, hbmemB, -, -, -, hbminB, hbconfB, -⟩ :=
    groundByCoordinates_spec (500, 300) treeB hexB
  have hb30 : fallbackDist (500, 300) bB ≤ 30 := by
    have h := hbminB iElemB (by decide) rfl rfl (by rw [hdB]; norm_num)
    rw [hdB] at h
    exact h
  have hbeqB : bB = iElemB := by
    have hmem2 : bB = vElemA ∨ bB = iElemB := by
      have h : bB ∈ ([vElemA, iElemB] : List UIElement) := hbmemB
      simpa using h
    rcases hmem2 with h | h
    · exfalso
      rw [h, hdA] at hb30
      norm_num at hb30
    · exact h
  subst hbeqB
  have hsuccB : (groundByCoordinates (500, 300) treeB 150).success := by
    refine ⟨by rw [hbelB]; rfl, ?_⟩
    rw [hbconfB, hdB]
    have hmx : max (0:ℝ) (1 - 30 / 150) = 4/5 := by
      rw [max_eq_right (by norm_num)]
      norm_num
    rw [hmx]
    norm_num
  have hgB := ground_fallback_eq dSpatial treeB (1920, 1080) (500, 300) rfl hlowB hsuccB
  refine ⟨⟨rfl, by decide, by rw [hdA]; norm_num, hlowA,
    ground_fallback_fail dSpatial treeA (1920, 1080) (500, 300) rfl hlowA hnsA⟩,
    by decide, by rw [hdA]; norm_num, hlowB, by rw [hgB]; exact hbelB, rfl, by decide⟩

/-- C9: holding every other scoring signal fixed, increasing the
name-similarity signal never decreases the total score `_score_element`
assigns (in particular across the 0.5 gate where the name term starts
contributing at weight 0.5); and the score `_score_element` computes is
exactly this combination of the element's signals. -/
theorem score_monotone_nameSim (sig : ScoreSignals) (ns1 ns2 : ℝ) (h : ns1 ≤ ns2) :
    scoreFromSignals defaultParams { sig with nameSim := ns1 } ≤
      scoreFromSignals defaultParams { sig with nameSim := ns2 } ∧
    ∀ (e : UIElement) (d : ElementDescription) (s : ℤ × ℤ),
      (scoreElement defaultParams e d s).1 =
        scoreFromSignals defaultParams (signalsOf e d s) := by
  refine ⟨?_, fun e d s => rfl⟩
  have hterm : (if sig.nameSet = true ∧ ns1 > defaultParams.nameMatchThreshold
      then ns1 * 0.5 else 0) ≤
      (if sig.nameSet = true ∧ ns2 > defaultParams.nameMatchThreshold
      then ns2 * 0.5 else 0) := by
    by_cases h1 : sig.nameSet = true ∧ ns1 > defaultParams.nameMatchThreshold
    · rw [if_pos h1, if_pos ⟨h1.1, lt_of_lt_of_le h1.2 h⟩]
      linarith
    · rw [if_neg h1]
      by_cases h2 : sig.nameSet = true ∧ ns2 > defaultParams.nameMatchThreshold
      · rw [if_pos h2]
        have hthr : (0:ℝ) < defaultParams.nameMatchThreshold := by
          norm_num [defaultParams]
        have hpos : (0:ℝ) < ns2 := lt_trans hthr h2.2
        linarith
      · rw [if_neg h2]
  unfold scoreFromSignals
  dsimp only
  exact add_le_add (add_le_add (add_le_add (add_le_add (add_le_add hterm le_rfl)
    le_rfl) le_rfl) le_rfl) le_rfl

/-- Witness for C9 at concrete signals: raising the name similarity from
0.4 (below the 0.5 gate) to 0.9 (above it) does not decrease the score. -/
theorem score_monotone_nameSim_witness :
    scoreFromSignals defaultParams
      ⟨true, 0.4, false, 0, false, 0, false, false, false, 0, false, 0⟩ ≤
    scoreFromSignals defaultParams
      ⟨true, 0.9, false, 0, false, 0, false, false, false, 0, false, 0⟩ :=
  (score_monotone_nameSim
    ⟨true, 0.4, false, 0, false, 0, false, false, false, 0, false, 0⟩
    0.4 0.9 (by norm_num)).1

end Grounding

end ScreenAgentSpec
